import Mathlib

/-!
Verification of the TUI-Kanban core: board data model, persistence/migration
cascade (`src/storage.rs`) and the App state machine (`src/app.rs`),
shallowly embedded in Lean.  Machine integers (`usize`) are modelled as `Nat`;
a Rust panic (out-of-bounds index, `Option::unwrap` on `None`, checked
subtraction underflow) is modelled by an operation returning `none`.
-/

namespace Kanban

/-- Rust `Task` from `src/board.rs`: title, ordered tag list, description. -/
structure Task where
  title : String
  tags : List String
  description : String
deriving Repr, DecidableEq

/-- Rust `Task::new` from `src/board.rs`: empty tags and description. -/
def Task.new (title : String) : Task :=
  { title := title, tags := [], description := "" }

/-- Rust `Task::add_tag` from `src/board.rs`: push the tag unless already present. -/
def Task.add_tag (t : Task) (tag : String) : Task :=
  if tag ∈ t.tags then t else { t with tags := t.tags ++ [tag] }

/-- Modelled from the spec: the current dynamic-column `BoardColumn`
(`id` stable identifier, `name` label, ordered task list).  The evolved
`board.rs` defining it is not among the provided sources; `app.rs` and
`storage.rs` construct it with exactly these three fields. -/
structure BoardColumn where
  id : String
  name : String
  tasks : List Task
deriving Repr, DecidableEq

/-- Modelled from the spec: `BoardColumn::new(id, name)` with an empty task
sequence. -/
def BoardColumn.new (id name : String) : BoardColumn :=
  { id := id, name := name, tasks := [] }

/-- Modelled from the spec: the current `Board`, an ordered sequence of
columns (`app.rs` and `storage.rs` access the single field `columns`). -/
structure Board where
  columns : List BoardColumn
deriving Repr, DecidableEq

/-- Modelled from the spec: `Board::new()` seeds four default columns
To Do / In Progress / Testing / Done with ids todo, in_progress, testing,
done. -/
def Board.new : Board :=
  { columns :=
      [ BoardColumn.new "todo" "To Do"
      , BoardColumn.new "in_progress" "In Progress"
      , BoardColumn.new "testing" "Testing"
      , BoardColumn.new "done" "Done" ] }

/-- Modelled from the spec: `Board::get_column(index)`, the bounds-checked
accessor returning an absence signal (`Option`) when out of range.  The
mutable variant `get_column_mut` reads the same way; in this functional
embedding mutation is expressed with `List.set` at the same index. -/
def Board.get_column (b : Board) (i : Nat) : Option BoardColumn :=
  b.columns.get? i

/-- Rust `Project` from `src/board.rs`: a name and a board. -/
structure Project where
  name : String
  board : Board
deriving Repr, DecidableEq

/-- Rust `Project::new` from `src/board.rs`: fresh default board. -/
def Project.new (name : String) : Project :=
  { name := name, board := Board.new }

/-! ## Persistence gateway (`src/storage.rs`) -/

/-- Rust `LegacyBoard` from `src/storage.rs`: the fixed four-field legacy shape. -/
structure LegacyBoard where
  todo : List Task
  in_progress : List Task
  testing : List Task
  done : List Task
deriving Repr, DecidableEq

/-- Rust `impl From<LegacyBoard> for Board` from `src/storage.rs`: the four fixed
fields become four columns with canonical ids and names, in order. -/
def LegacyBoard.toBoard (legacy_board : LegacyBoard) : Board :=
  { columns :=
      [ { id := "todo", name := "To Do", tasks := legacy_board.todo }
      , { id := "in_progress", name := "In Progress", tasks := legacy_board.in_progress }
      , { id := "testing", name := "Testing", tasks := legacy_board.testing }
      , { id := "done", name := "Done", tasks := legacy_board.done } ] }

/-- Rust `LegacyProject` from `src/storage.rs`. -/
structure LegacyProject where
  name : String
  board : LegacyBoard
deriving Repr, DecidableEq

/-- Rust `impl From<LegacyProject> for Project` from `src/storage.rs`. -/
def LegacyProject.toProject (legacy_project : LegacyProject) : Project :=
  { name := legacy_project.name, board := legacy_project.board.toBoard }

/-- The observable condition of one on-disk file as `load_projects` sees it:
absent (or unreadable), present but failing to parse at the expected type, or
successfully parsed to a value.  A read error and a parse error both make the
cascade fall through, so they are identified as `unparseable`. -/
inductive FileState (α : Type) where
  | absent
  | unparseable
  | parsed (value : α)
deriving Repr, DecidableEq

/-- Whether the file parsed successfully. -/
def FileState.isParsed : FileState α → Bool
  | .parsed _ => true
  | _ => false

/-- Rust `load_projects` from `src/storage.rs`, as a function of the three file
states (current-format `projects.json`, legacy `projects.json`, legacy
`board.json`).  The first component is the returned collection; the second
records the argument of the `save_projects` call the migration performs
(`none` when nothing is written back).  The cascade: parsed current file is
returned as-is; otherwise a parsed legacy project list is converted, written
back and returned; otherwise a parsed legacy board becomes a single project
named "Default", written back and returned; otherwise a fresh "Default"
project is returned without a write. -/
def load_projects (current : FileState (List Project))
    (oldOmarchy : FileState (List LegacyProject))
    (oldBoard : FileState LegacyBoard) :
    List Project × Option (List Project) :=
  match current with
  | .parsed projects => (projects, none)
  | _ =>
    match oldOmarchy with
    | .parsed legacy_projects =>
        let projects := legacy_projects.map LegacyProject.toProject
        (projects, some projects)
    | _ =>
      match oldBoard with
      | .parsed legacy_board =>
          let default_project : Project :=
            { name := "Default", board := legacy_board.toBoard }
          ([default_project], some [default_project])
      | _ => ([Project.new "Default"], none)

/-! ## App state machine (`src/app.rs`)

A Rust panic is modelled by `none`; every state-machine operation is a
function `App → Option App` (operations that can be seen never to panic are
plain `App → App` and are wrapped in `some` by `step`). -/

/-- Rust `TaskField` from `src/app.rs`. -/
inductive TaskField where
  | Title
  | Tags
  | Description
deriving Repr, DecidableEq

/-- Rust `InputMode` from `src/app.rs`. -/
inductive InputMode where
  | Normal
  | AddingTask
  | AddingTag
  | ViewingTask
  | EditingTitle
  | EditingDescription
  | ViewingHelp
  | ProjectList
  | AddingProject
  | AddingColumn
  | RenamingColumn
deriving Repr, DecidableEq

/-- Rust `App` from `src/app.rs`.  The extra ghost field `saveCount` counts
the invocations of `storage::save_projects` made through `App::save`; it lets
theorems speak about whether an operation wrote to storage. -/
structure App where
  projects : List Project
  current_project : Nat
  selected_project_index : Nat
  selected_column : Nat
  selected_index : Nat
  scroll_offset : Nat
  visible_items : Nat
  should_quit : Bool
  input_mode : InputMode
  input_buffer : String
  focused_field : TaskField
  saveCount : Nat
deriving Repr, DecidableEq

/-- Rust expression `self.projects[self.current_project]`: an out-of-range
index is a panic (`none`). -/
def App.currentProject (s : App) : Option Project :=
  s.projects.get? s.current_project

/-- Rust `App::board` from `src/app.rs` (read side of `board`/`board_mut`). -/
def App.board (s : App) : Option Board :=
  s.currentProject.map Project.board

/-- Write side of `board_mut`: replace the board of the current project,
`p` being the already-fetched current project. -/
def App.withBoard (s : App) (p : Project) (b : Board) : App :=
  { s with projects := s.projects.set s.current_project ({ p with board := b }) }

/-- Rust `App::save` from `src/app.rs`: calls `storage::save_projects` and
discards the error; in-memory state is unchanged except the ghost counter. -/
def App.save (s : App) : App :=
  { s with saveCount := s.saveCount + 1 }

/-- Code pattern `board.get_column(i).map_or(0, |col| col.tasks.len())`. -/
def Board.columnLen (b : Board) (i : Nat) : Nat :=
  ((b.get_column i).map (fun col => col.tasks.length)).getD 0

/-- Rust unsigned subtraction, underflow treated as a panic (the debug
overflow semantics of `usize`). -/
def usizeSub (a b : Nat) : Option Nat :=
  if b ≤ a then some (a - b) else none

/-- Rust `Vec::swap`, which panics when either index is out of range. -/
def listSwap (l : List α) (i j : Nat) : Option (List α) :=
  match l.get? i, l.get? j with
  | some a, some b => some ((l.set i b).set j a)
  | _, _ => none

/-- Rust `App::move_up` from `src/app.rs`. -/
def App.move_up (s : App) : App :=
  if s.selected_index > 0 then
    { s with selected_index := s.selected_index - 1 }
  else s

/-- Rust `App::move_down` from `src/app.rs`. -/
def App.move_down (s : App) : Option App := do
  let b ← s.board
  let column_len := b.columnLen s.selected_column
  if column_len > 0 ∧ s.selected_index < column_len - 1 then
    pure { s with selected_index := s.selected_index + 1 }
  else
    pure s

/-- Rust `App::clamp_selection` from `src/app.rs`. -/
def App.clamp_selection (s : App) : Option App := do
  let b ← s.board
  let column_len := b.columnLen s.selected_column
  if column_len = 0 then
    pure { s with selected_index := 0, scroll_offset := 0 }
  else if s.selected_index ≥ column_len then
    pure { s with selected_index := column_len - 1 }
  else
    pure s

/-- Rust `App::move_left` from `src/app.rs`. -/
def App.move_left (s : App) : Option App :=
  if s.selected_column > 0 then
    App.clamp_selection { s with selected_column := s.selected_column - 1 }
  else
    pure s

/-- Rust `App::move_right` from `src/app.rs`: the guard compares against
`columns.len() - 1`. -/
def App.move_right (s : App) : Option App := do
  let b ← s.board
  let lim ← usizeSub b.columns.length 1
  if s.selected_column < lim then
    App.clamp_selection { s with selected_column := s.selected_column + 1 }
  else
    pure s

/-- Rust `App::update_scroll` from `src/app.rs`.  With `visible_items = 0` it
returns immediately; otherwise it applies the scroll-down rule, then the
scroll-up rule, then clamps to `max_scroll`. -/
def App.update_scroll (s : App) : Option App :=
  if s.visible_items = 0 then
    pure s
  else do
    let b ← s.board
    let column_len := b.columnLen s.selected_column
    let max_scroll := if column_len > s.visible_items then column_len - s.visible_items else 0
    let off1 :=
      if s.selected_index ≥ s.scroll_offset + s.visible_items then
        s.selected_index - s.visible_items + 1
      else
        s.scroll_offset
    let off2 := if s.selected_index < off1 then s.selected_index else off1
    let off3 := if off2 > max_scroll then max_scroll else off2
    pure { s with scroll_offset := off3 }

/-- Rust `App::move_task_forward` from `src/app.rs`.  Both
`get_column_mut(..).unwrap()` call sites are modelled as monadic binds
(`none` would be the panic). -/
def App.move_task_forward (s : App) : Option App := do
  let current_column_idx := s.selected_column
  let next_column_idx := current_column_idx + 1
  let p ← s.currentProject
  if next_column_idx < p.board.columns.length then
    let current_column ← p.board.get_column current_column_idx
    match current_column.tasks.get? s.selected_index with
    | none => pure s
    | some task =>
      let removedCol := { current_column with tasks := current_column.tasks.eraseIdx s.selected_index }
      let b1 : Board := { columns := p.board.columns.set current_column_idx removedCol }
      let next_column ← b1.get_column next_column_idx
      let pushedCol := { next_column with tasks := next_column.tasks ++ [task] }
      let b2 : Board := { columns := b1.columns.set next_column_idx pushedCol }
      let s1 ← App.clamp_selection (s.withBoard p b2)
      pure s1.save
  else
    pure s

/-- Rust `App::move_task_backward` from `src/app.rs`.  Note that
`get_column_mut(current_column_idx).unwrap()` runs whenever
`selected_column > 0`, even when the selected column index is out of range. -/
def App.move_task_backward (s : App) : Option App := do
  let current_column_idx := s.selected_column
  if current_column_idx > 0 then
    let prev_column_idx := current_column_idx - 1
    let p ← s.currentProject
    let current_column ← p.board.get_column current_column_idx
    match current_column.tasks.get? s.selected_index with
    | none => pure s
    | some task =>
      let removedCol := { current_column with tasks := current_column.tasks.eraseIdx s.selected_index }
      let b1 : Board := { columns := p.board.columns.set current_column_idx removedCol }
      let prev_column ← b1.get_column prev_column_idx
      let pushedCol := { prev_column with tasks := prev_column.tasks ++ [task] }
      let b2 : Board := { columns := b1.columns.set prev_column_idx pushedCol }
      let s1 ← App.clamp_selection (s.withBoard p b2)
      pure s1.save
  else
    pure s

/-- Rust `App::delete_task` from `src/app.rs`: unconditional
`get_column_mut(..).unwrap()` before the index check. -/
def App.delete_task (s : App) : Option App := do
  let p ← s.currentProject
  let column ← p.board.get_column s.selected_column
  if s.selected_index < column.tasks.length then
    let removedCol := { column with tasks := column.tasks.eraseIdx s.selected_index }
    let b : Board := { columns := p.board.columns.set s.selected_column removedCol }
    let s1 ← App.clamp_selection (s.withBoard p b)
    pure s1.save
  else
    pure s

/-- Rust `App::start_adding_column` from `src/app.rs`. -/
def App.start_adding_column (s : App) : App :=
  { s with input_mode := .AddingColumn, input_buffer := "" }

/-- Rust `App::start_renaming_column` from `src/app.rs`. -/
def App.start_renaming_column (s : App) : Option App := do
  let b ← s.board
  match b.get_column s.selected_column with
  | some column =>
      pure { s with input_buffer := column.name, input_mode := .RenamingColumn }
  | none => pure s

/-- Rust `App::delete_column` from `src/app.rs`. -/
def App.delete_column (s : App) : Option App := do
  let p ← s.currentProject
  let board_len := p.board.columns.length
  if board_len ≤ 1 then
    pure s
  else
    let is_empty :=
      match p.board.get_column s.selected_column with
      | some col => col.tasks.isEmpty
      | none => false
    if is_empty then
      let col_idx := s.selected_column
      let b : Board := { columns := p.board.columns.eraseIdx col_idx }
      let s1 := s.withBoard p b
      let s2 :=
        if s1.selected_column ≥ b.columns.length then
          { s1 with selected_column := b.columns.length - 1 }
        else s1
      let s3 ← App.clamp_selection s2
      pure s3.save
    else
      pure s

/-- Rust `App::move_column_left` from `src/app.rs`. -/
def App.move_column_left (s : App) : Option App := do
  if s.selected_column > 0 then
    let p ← s.currentProject
    let idx := s.selected_column
    let cols ← listSwap p.board.columns idx (idx - 1)
    let s1 := s.withBoard p { columns := cols }
    pure ({ s1 with selected_column := idx - 1 }).save
  else
    pure s

/-- Rust `App::move_column_right` from `src/app.rs`. -/
def App.move_column_right (s : App) : Option App := do
  let p ← s.currentProject
  let lim ← usizeSub p.board.columns.length 1
  if s.selected_column < lim then
    let idx := s.selected_column
    let cols ← listSwap p.board.columns idx (idx + 1)
    let s1 := s.withBoard p { columns := cols }
    pure ({ s1 with selected_column := idx + 1 }).save
  else
    pure s

/-- Rust `App::start_adding_task` from `src/app.rs`. -/
def App.start_adding_task (s : App) : App :=
  { s with input_mode := .AddingTask, input_buffer := "" }

/-- Rust `App::start_adding_tag` from `src/app.rs`. -/
def App.start_adding_tag (s : App) : Option App := do
  let b ← s.board
  match b.get_column s.selected_column with
  | some column =>
      if s.selected_index < column.tasks.length then
        pure { s with input_mode := .AddingTag, input_buffer := "" }
      else
        pure s
  | none => pure s

/-- Rust `App::cancel_input` from `src/app.rs`. -/
def App.cancel_input (s : App) : App :=
  { s with input_mode := .Normal, input_buffer := "" }

/-- Rust `App::input_char` from `src/app.rs`. -/
def App.input_char (s : App) (c : Char) : App :=
  { s with input_buffer := s.input_buffer.push c }

/-- Rust `App::input_backspace` from `src/app.rs` (`String::pop`). -/
def App.input_backspace (s : App) : App :=
  { s with input_buffer := s.input_buffer.dropRight 1 }

/-- Rust `App::submit_input` from `src/app.rs`, branch by branch.  The
`EditingTitle`, `EditingDescription` and `AddingProject` arms end in an early
`return` after setting their target mode; the remaining arms fall through to
`cancel_input`. -/
def App.submit_input (s : App) : Option App := do
  match s.input_mode with
  | .AddingTask =>
      let s1 ←
        if s.input_buffer ≠ "" then do
          let task := Task.new s.input_buffer
          let selected_col_idx := s.selected_column
          let p ← s.currentProject
          let current_column ← p.board.get_column selected_col_idx
          let newTasks := current_column.tasks ++ [task]
          let newCol := { current_column with tasks := newTasks }
          let b : Board := { columns := p.board.columns.set selected_col_idx newCol }
          let sA := s.withBoard p b
          let column_len := newTasks.length
          let sB ←
            if column_len > 0 then do
              let sB := { sA with selected_index := column_len - 1 }
              sB.update_scroll
            else
              pure sA
          pure sB.save
        else
          pure s
      pure s1.cancel_input
  | .AddingTag =>
      let s1 ←
        if s.input_buffer ≠ "" then do
          let tag := s.input_buffer
          let p ← s.currentProject
          let column ← p.board.get_column s.selected_column
          match column.tasks.get? s.selected_index with
          | some t =>
              let newCol := { column with tasks := column.tasks.set s.selected_index (t.add_tag tag) }
              let b : Board := { columns := p.board.columns.set s.selected_column newCol }
              pure ((s.withBoard p b).save)
          | none => pure s
        else
          pure s
      pure s1.cancel_input
  | .EditingTitle =>
      let s1 ←
        if s.input_buffer ≠ "" then do
          let title := s.input_buffer
          let p ← s.currentProject
          let column ← p.board.get_column s.selected_column
          match column.tasks.get? s.selected_index with
          | some t =>
              let newCol := { column with tasks := column.tasks.set s.selected_index ({ t with title := title }) }
              let b : Board := { columns := p.board.columns.set s.selected_column newCol }
              pure ((s.withBoard p b).save)
          | none => pure s
        else
          pure s
      pure { s1 with input_mode := .ViewingTask, input_buffer := "" }
  | .EditingDescription =>
      let description := s.input_buffer
      let p ← s.currentProject
      let column ← p.board.get_column s.selected_column
      let s1 ←
        match column.tasks.get? s.selected_index with
        | some t =>
            let newCol := { column with tasks := column.tasks.set s.selected_index ({ t with description := description }) }
            let b : Board := { columns := p.board.columns.set s.selected_column newCol }
            pure ((s.withBoard p b).save)
        | none => pure s
      pure { s1 with input_mode := .ViewingTask, input_buffer := "" }
  | .AddingProject =>
      let s1 :=
        if s.input_buffer ≠ "" then
          let new_project := Project.new s.input_buffer
          let sA := { s with projects := s.projects ++ [new_project] }
          let sB := { sA with current_project := sA.projects.length - 1 }
          ({ sB with selected_project_index := sB.current_project }).save
        else
          s
      pure { s1 with input_mode := .ProjectList, input_buffer := "" }
  | .AddingColumn =>
      let s1 ←
        if s.input_buffer ≠ "" then do
          let name := s.input_buffer
          let id := name.toLower.replace " " "_"
          let new_column := BoardColumn.new id name
          let p ← s.currentProject
          let b : Board := { columns := p.board.columns ++ [new_column] }
          pure ((s.withBoard p b).save)
        else
          pure s
      pure s1.cancel_input
  | .RenamingColumn =>
      let s1 ←
        if s.input_buffer ≠ "" then do
          let name := s.input_buffer
          let p ← s.currentProject
          match p.board.get_column s.selected_column with
          | some column =>
              let newCol := { column with name := name }
              let b : Board := { columns := p.board.columns.set s.selected_column newCol }
              pure ((s.withBoard p b).save)
          | none => pure s
        else
          pure s
      pure s1.cancel_input
  | .Normal => pure s.cancel_input
  | .ViewingTask => pure s.cancel_input
  | .ViewingHelp => pure s.cancel_input
  | .ProjectList => pure s.cancel_input

/-- Rust `App::open_task` from `src/app.rs`. -/
def App.open_task (s : App) : Option App := do
  let b ← s.board
  match b.get_column s.selected_column with
  | some column =>
      if s.selected_index < column.tasks.length then
        pure { s with input_mode := .ViewingTask, focused_field := .Title }
      else
        pure s
  | none => pure s

/-- Rust `App::next_field` from `src/app.rs`. -/
def App.next_field (s : App) : App :=
  { s with focused_field :=
      match s.focused_field with
      | .Title => .Tags
      | .Tags => .Description
      | .Description => .Title }

/-- Rust `App::start_editing_title` from `src/app.rs`. -/
def App.start_editing_title (s : App) : Option App := do
  let b ← s.board
  match b.get_column s.selected_column with
  | some column =>
      match column.tasks.get? s.selected_index with
      | some t => pure { s with input_buffer := t.title, input_mode := .EditingTitle }
      | none => pure s
  | none => pure s

/-- Rust `App::start_editing_description` from `src/app.rs`. -/
def App.start_editing_description (s : App) : Option App := do
  let b ← s.board
  match b.get_column s.selected_column with
  | some column =>
      match column.tasks.get? s.selected_index with
      | some t => pure { s with input_buffer := t.description, input_mode := .EditingDescription }
      | none => pure s
  | none => pure s

/-- Rust `App::remove_tag` from `src/app.rs`. -/
def App.remove_tag (s : App) (tag_index : Nat) : Option App := do
  let p ← s.currentProject
  match p.board.get_column s.selected_column with
  | some column =>
      match column.tasks.get? s.selected_index with
      | some task =>
          if tag_index < task.tags.length then
            let newTask := { task with tags := task.tags.eraseIdx tag_index }
            let newCol := { column with tasks := column.tasks.set s.selected_index newTask }
            let b : Board := { columns := p.board.columns.set s.selected_column newCol }
            pure ((s.withBoard p b).save)
          else
            pure s
      | none => pure s
  | none => pure s

/-- Rust `App::open_project_list` from `src/app.rs`. -/
def App.open_project_list (s : App) : App :=
  { s with input_mode := .ProjectList, selected_project_index := s.current_project }

/-- Rust `App::select_project` from `src/app.rs`. -/
def App.select_project (s : App) : App :=
  { s with current_project := s.selected_project_index
         , input_mode := .Normal
         , selected_column := 0
         , selected_index := 0
         , scroll_offset := 0 }

/-- Rust `App::move_project_up` from `src/app.rs`. -/
def App.move_project_up (s : App) : App :=
  if s.selected_project_index > 0 then
    { s with selected_project_index := s.selected_project_index - 1 }
  else s

/-- Rust `App::move_project_down` from `src/app.rs` (guard compares against
`projects.len() - 1`). -/
def App.move_project_down (s : App) : Option App := do
  let lim ← usizeSub s.projects.length 1
  if s.selected_project_index < lim then
    pure { s with selected_project_index := s.selected_project_index + 1 }
  else
    pure s

/-- Rust `App::start_adding_project` from `src/app.rs`. -/
def App.start_adding_project (s : App) : App :=
  { s with input_mode := .AddingProject, input_buffer := "" }

/-- Rust `App::delete_project` from `src/app.rs`: `Vec::remove` panics when
the highlighted index is out of range, then both indices are re-clamped. -/
def App.delete_project (s : App) : Option App := do
  if s.projects.length > 1 then
    let _removed ← s.projects.get? s.selected_project_index
    let s1 := { s with projects := s.projects.eraseIdx s.selected_project_index }
    let s2 :=
      if s1.selected_project_index ≥ s1.projects.length then
        { s1 with selected_project_index := s1.projects.length - 1 }
      else s1
    let s3 :=
      if s2.current_project ≥ s2.projects.length then
        { s2 with current_project := s2.projects.length - 1 }
      else s2
    pure s3.save
  else
    pure s

/-- Rust `App::show_help` from `src/app.rs`. -/
def App.show_help (s : App) : App :=
  { s with input_mode := .ViewingHelp }

/-- Rust `App::close_view` from `src/app.rs`. -/
def App.close_view (s : App) : App :=
  { s with input_mode := .Normal, input_buffer := "" }

/-- Rust `App::new` from `src/app.rs`: initial state built from
`storage::load_projects()` on the given file configuration. -/
def App.new (current : FileState (List Project))
    (oldOmarchy : FileState (List LegacyProject))
    (oldBoard : FileState LegacyBoard) : App :=
  { projects := (load_projects current oldOmarchy oldBoard).1
  , current_project := 0
  , selected_project_index := 0
  , selected_column := 0
  , selected_index := 0
  , scroll_offset := 0
  , visible_items := 5
  , should_quit := false
  , input_mode := .Normal
  , input_buffer := ""
  , focused_field := .Title
  , saveCount := 0 }

/-- One user intent per public mutating operation of `App`. -/
inductive Intent where
  | moveUp
  | moveDown
  | moveLeft
  | moveRight
  | moveTaskForward
  | moveTaskBackward
  | deleteTask
  | startAddingColumn
  | startRenamingColumn
  | deleteColumn
  | moveColumnLeft
  | moveColumnRight
  | startAddingTask
  | startAddingTag
  | cancelInput
  | inputChar (c : Char)
  | inputBackspace
  | submitInput
  | openTask
  | nextField
  | startEditingTitle
  | startEditingDescription
  | removeTag (i : Nat)
  | openProjectList
  | selectProject
  | moveProjectUp
  | moveProjectDown
  | startAddingProject
  | deleteProject
  | showHelp
  | closeView
  | updateScroll
deriving Repr, DecidableEq

/-- Dispatch of one intent to its `App` operation. -/
def step (i : Intent) (s : App) : Option App :=
  match i with
  | .moveUp => some s.move_up
  | .moveDown => s.move_down
  | .moveLeft => s.move_left
  | .moveRight => s.move_right
  | .moveTaskForward => s.move_task_forward
  | .moveTaskBackward => s.move_task_backward
  | .deleteTask => s.delete_task
  | .startAddingColumn => some s.start_adding_column
  | .startRenamingColumn => s.start_renaming_column
  | .deleteColumn => s.delete_column
  | .moveColumnLeft => s.move_column_left
  | .moveColumnRight => s.move_column_right
  | .startAddingTask => some s.start_adding_task
  | .startAddingTag => s.start_adding_tag
  | .cancelInput => some s.cancel_input
  | .inputChar c => some (s.input_char c)
  | .inputBackspace => some s.input_backspace
  | .submitInput => s.submit_input
  | .openTask => s.open_task
  | .nextField => some s.next_field
  | .startEditingTitle => s.start_editing_title
  | .startEditingDescription => s.start_editing_description
  | .removeTag n => s.remove_tag n
  | .openProjectList => some s.open_project_list
  | .selectProject => some s.select_project
  | .moveProjectUp => some s.move_project_up
  | .moveProjectDown => s.move_project_down
  | .startAddingProject => some s.start_adding_project
  | .deleteProject => s.delete_project
  | .showHelp => some s.show_help
  | .closeView => some s.close_view
  | .updateScroll => s.update_scroll

/-- Run a sequence of intents, propagating a panic. -/
def steps : List Intent → App → Option App
  | [], s => some s
  | i :: is, s => (step i s).bind (steps is)

/-- Reachability: some file configuration and intent sequence produces the
state from startup. -/
def ReachableApp (s : App) : Prop :=
  ∃ (current : FileState (List Project)) (oldOmarchy : FileState (List LegacyProject))
    (oldBoard : FileState LegacyBoard) (intents : List Intent),
    steps intents (App.new current oldOmarchy oldBoard) = some s

/-! ## Derived read accessors used by the theorems -/

/-- Number of columns of the current board, `0` when the current project
index is out of range. -/
def App.columnCount (s : App) : Nat :=
  (s.board.map (fun b => b.columns.length)).getD 0

/-- Task count of the selected column, `0` when absent. -/
def App.selColLen (s : App) : Nat :=
  (s.board.map (fun b => b.columnLen s.selected_column)).getD 0

/-- Columns of the current board, `[]` when the current project index is out
of range. -/
def App.currentColumns (s : App) : List BoardColumn :=
  (s.board.map Board.columns).getD []

/-- Task list of column `j` of the current board, `none` when absent. -/
def App.colTasks (s : App) (j : Nat) : Option (List Task) :=
  s.board.bind (fun b => (b.get_column j).map (fun c => c.tasks))

/-- Startup state when no persisted file exists at all: one Default project
with the four seeded columns. -/
def app0 : App := App.new .absent .absent .absent

/-! ## C8: tag deduplication -/

/-- C8: adding a tag already present in the tag sequence leaves the task
unchanged, adding an absent tag appends it at the end (preserving first-seen
order), `add_tag` is idempotent, and adding the same tag twice to a task
without tags yields exactly that one tag. -/
theorem add_tag_dedup_spec (t : Task) (tag : String) :
    (tag ∈ t.tags → t.add_tag tag = t) ∧
    (tag ∉ t.tags → (t.add_tag tag).tags = t.tags ++ [tag]) ∧
    (t.add_tag tag).add_tag tag = t.add_tag tag ∧
    (t.tags = [] → ((t.add_tag tag).add_tag tag).tags = [tag]) := by
  refine ⟨fun h => ?_, fun h => ?_, ?_, fun h => ?_⟩
  · simp [Task.add_tag, h]
  · simp [Task.add_tag, h]
  · by_cases h : tag ∈ t.tags
    · simp [Task.add_tag, h]
    · simp [Task.add_tag, h]
  · by_cases hmem : tag ∈ t.tags
    · rw [h] at hmem; simp at hmem
    · simp [Task.add_tag, hmem, h]

/-- Witness for C8 at the concrete task `Task.new "w"` and tag `"bug"`. -/
theorem add_tag_dedup_spec_witness :
    (((Task.new "w").add_tag "bug").add_tag "bug").tags = ["bug"] :=
  (add_tag_dedup_spec (Task.new "w") "bug").2.2.2 rfl

/-! ## C1: the load cascade never fails, but it can return an empty
collection -/

/-- C1 counterexample: a current-format `projects.json` parsing to the empty
list is returned as-is, so `load_projects` returns an empty collection,
contradicting the claim that the result always contains at least one
Project. -/
theorem load_projects_empty_when_parsed_empty :
    (load_projects (FileState.parsed ([] : List Project)) .absent .absent).1 = [] := rfl

/-- C1 amended: `load_projects` is a total function (it never fails), and
the returned collection is nonempty provided neither the current-format file
nor the legacy projects file parses to an empty list; a parseable file
holding an empty list is returned as the empty collection. -/
theorem load_projects_total_nonempty (current : FileState (List Project))
    (oldOmarchy : FileState (List LegacyProject)) (oldBoard : FileState LegacyBoard)
    (hc : current ≠ FileState.parsed []) (ho : oldOmarchy ≠ FileState.parsed []) :
    (load_projects current oldOmarchy oldBoard).1 ≠ [] := by
  cases current with
  | parsed l =>
      simpa [load_projects] using fun h => hc (by simp [h])
  | absent =>
      cases oldOmarchy with
      | parsed l =>
          simpa [load_projects] using fun h => ho (by simp [h])
      | absent => cases oldBoard <;> simp [load_projects]
      | unparseable => cases oldBoard <;> simp [load_projects]
  | unparseable =>
      cases oldOmarchy with
      | parsed l =>
          simpa [load_projects] using fun h => ho (by simp [h])
      | absent => cases oldBoard <;> simp [load_projects]
      | unparseable => cases oldBoard <;> simp [load_projects]

/-- Witness for C1 at the all-absent configuration. -/
theorem load_projects_total_nonempty_witness :
    (load_projects .absent .absent .absent).1 ≠ [] :=
  load_projects_total_nonempty .absent .absent .absent (by simp) (by simp)

/-! ## C2: legacy board conversion and the board.json migration path -/

/-- C2: converting a legacy fixed-four-field board yields exactly the four
columns To Do, In Progress, Testing, Done with ids todo, in_progress,
testing, done, carrying the four legacy task lists in order; when neither
newer file parses and `board.json` parses, `load_projects` returns the
single Project "Default" with the converted board, after writing that
collection back in the current format, and a load of the rewritten file
returns it directly with no further conversion or write. -/
theorem legacy_board_migration_roundtrip (lb : LegacyBoard)
    (current : FileState (List Project)) (oldOmarchy : FileState (List LegacyProject))
    (hc : current.isParsed = false) (ho : oldOmarchy.isParsed = false) :
    lb.toBoard.columns =
      [ { id := "todo", name := "To Do", tasks := lb.todo }
      , { id := "in_progress", name := "In Progress", tasks := lb.in_progress }
      , { id := "testing", name := "Testing", tasks := lb.testing }
      , { id := "done", name := "Done", tasks := lb.done } ] ∧
    load_projects current oldOmarchy (.parsed lb) =
      ([{ name := "Default", board := lb.toBoard }],
       some [{ name := "Default", board := lb.toBoard }]) ∧
    (∀ (o2 : FileState (List LegacyProject)) (b2 : FileState LegacyBoard),
      load_projects (.parsed [{ name := "Default", board := lb.toBoard }]) o2 b2 =
        ([{ name := "Default", board := lb.toBoard }], none)) := by
  refine ⟨rfl, ?_, fun o2 b2 => rfl⟩
  cases current <;> cases oldOmarchy <;> simp_all [load_projects, FileState.isParsed]

/-- Witness for C2 at the legacy board `{todo:[A], in_progress:[], testing:[B],
done:[]}` of the spec, with both newer files absent. -/
theorem legacy_board_migration_roundtrip_witness :
    (load_projects .absent .absent
        (.parsed { todo := [Task.new "A"], in_progress := [], testing := [Task.new "B"],
                   done := [] })).1 =
      [{ name := "Default"
       , board := LegacyBoard.toBoard
           { todo := [Task.new "A"], in_progress := [], testing := [Task.new "B"],
             done := [] } }] :=
  congrArg Prod.fst
    ((legacy_board_migration_roundtrip
        { todo := [Task.new "A"], in_progress := [], testing := [Task.new "B"], done := [] }
        .absent .absent rfl rfl).2.1)

/-! ## C9: submitting an empty AddingTask buffer -/

/-- C9: in `AddingTask` mode with an empty input buffer, `submit_input`
leaves the projects (hence every task sequence of every column) unchanged,
performs no storage write, returns the mode to `Normal` and clears the
buffer. -/
theorem submit_empty_adding_task_noop (s : App)
    (hm : s.input_mode = InputMode.AddingTask) (hb : s.input_buffer = "") :
    ∃ s1, s.submit_input = some s1 ∧
      s1.projects = s.projects ∧
      s1.saveCount = s.saveCount ∧
      s1.input_mode = InputMode.Normal ∧
      s1.input_buffer = "" ∧
      (∀ j, s1.colTasks j = s.colTasks j) := by
  refine ⟨s.cancel_input, ?_, rfl, rfl, rfl, rfl, fun j => rfl⟩
  simp [App.submit_input, hm, hb]

/-- Witness for C9 at the startup state switched into `AddingTask` mode. -/
theorem submit_empty_adding_task_noop_witness :
    ∃ s1, ({ app0 with input_mode := InputMode.AddingTask } : App).submit_input = some s1 ∧
      s1.saveCount = app0.saveCount :=
  match submit_empty_adding_task_noop { app0 with input_mode := InputMode.AddingTask } rfl rfl
  with
  | ⟨s1, h1, _, h3, _, _, _⟩ => ⟨s1, h1, h3⟩

/-! ## C10: deleting a project listed before the current one -/

/-- C10: with at least three projects, highlighted index `i` strictly below
current index `c`, and `c` strictly below the last index, `delete_project`
removes project `i` and keeps `current_project` numerically equal to `c`, so
the project current afterwards is the one formerly at `c + 1`. -/
theorem delete_project_keeps_numeric_current (s : App)
    (h3 : 3 ≤ s.projects.length)
    (hi : s.selected_project_index < s.current_project)
    (hc : s.current_project < s.projects.length - 1) :
    ∃ s1, s.delete_project = some s1 ∧
      s1.projects = s.projects.eraseIdx s.selected_project_index ∧
      s1.current_project = s.current_project ∧
      s1.projects.get? s.current_project = s.projects.get? (s.current_project + 1) := by
  have hlen : 1 < s.projects.length := by omega
  have hsel : s.selected_project_index < s.projects.length := by omega
  obtain ⟨p, hp⟩ : ∃ p, s.projects.get? s.selected_project_index = some p :=
    ⟨_, List.get?_eq_get hsel⟩
  have hlen' : (s.projects.eraseIdx s.selected_project_index).length = s.projects.length - 1 := by
    rw [List.length_eraseIdx]
    simp [hsel]
  refine ⟨{ s with
      projects := s.projects.eraseIdx s.selected_project_index,
      saveCount := s.saveCount + 1 }, ?_, rfl, rfl, ?_⟩
  · have hc1 : ¬ s.selected_project_index ≥
        (s.projects.eraseIdx s.selected_project_index).length := by omega
    have hc2 : ¬ s.current_project ≥
        (s.projects.eraseIdx s.selected_project_index).length := by omega
    rw [List.get?_eq_getElem?] at hp
    simp [App.delete_project, hlen, hp, hc1, hc2, App.save]
  · show ((s.projects.eraseIdx s.selected_project_index).get? s.current_project = _)
    rw [List.get?_eq_getElem?, List.get?_eq_getElem?, List.getElem?_eraseIdx]
    simp [Nat.not_lt.mpr (Nat.le_of_lt hi)]

/-- Witness for C10 at a concrete three-project state: highlighted 0, current
1; after deletion the current project is the former third project "P2". -/
theorem delete_project_keeps_numeric_current_witness :
    ∃ s1, ({ app0 with
              projects := [Project.new "P0", Project.new "P1", Project.new "P2"]
            , current_project := 1 } : App).delete_project = some s1 ∧
      s1.current_project = 1 ∧
      s1.projects.get? 1 = some (Project.new "P2") :=
  match delete_project_keeps_numeric_current
      { app0 with
          projects := [Project.new "P0", Project.new "P1", Project.new "P2"]
        , current_project := 1 }
      (by decide) (by decide) (by decide) with
  | ⟨s1, h1, _, h3, h4⟩ => ⟨s1, h1, h3, by rw [h4]; rfl⟩

/-! ## C7: scroll recomputation -/

/-- Helper: under a valid current-project index the board accessor succeeds. -/
theorem board_eq_some (s : App) (hp : s.current_project < s.projects.length) :
    ∃ b, s.board = some b := by
  simp [App.board, App.currentProject, List.getElem?_eq_getElem hp]

/-- Offset prescribed by the C7 spec sentence before the final clamp: advance
so the selection is the last visible row when it fell below the window, jump
to the selection when it was above the window, otherwise keep the offset. -/
def specScrollTarget (s : App) : Nat :=
  if s.scroll_offset + s.visible_items ≤ s.selected_index then
    s.selected_index - s.visible_items + 1
  else if s.selected_index < s.scroll_offset then
    s.selected_index
  else
    s.scroll_offset

/-- Startup state carrying a zero visible count and a stale large scroll
offset (the rendering layer has not yet recomputed the viewport size). -/
def scrollStuck : App := { app0 with visible_items := 0, scroll_offset := 10 }

/-- C7 counterexample: with `visible_items = 0` the function returns
immediately, leaving the offset at 10 even though the selection (0) is above
the window and the claimed clamp bound `max 0 (column_length -
visible_count)` is 0. -/
theorem update_scroll_zero_visible_unclamped :
    scrollStuck.selected_index < scrollStuck.scroll_offset ∧
    App.update_scroll scrollStuck = some scrollStuck ∧
    scrollStuck.scroll_offset = 10 ∧
    max 0 ((scrollStuck.selColLen : Int) - (scrollStuck.visible_items : Int)) = 0 := by
  refine ⟨by decide, rfl, rfl, by decide⟩

/-- C7 amended: when `visible_items = 0` the offset is left unchanged;
otherwise (for a valid current project) the offset becomes
`selected_index - visible_items + 1` when the selection was at or past
`offset + visible_items`, becomes `selected_index` when the selection was
below the offset, stays put otherwise, and is in all cases clamped to at
most `column_length - visible_items` (Nat subtraction, i.e.
`max 0 (column_length - visible_count)`). -/
theorem update_scroll_spec (s : App) (hv : 1 ≤ s.visible_items)
    (hp : s.current_project < s.projects.length) :
    s.update_scroll =
      some { s with scroll_offset := min (specScrollTarget s) (s.selColLen - s.visible_items) } := by
  obtain ⟨b, hb⟩ := board_eq_some s hp
  have hlen : s.selColLen = b.columnLen s.selected_column := by
    simp [App.selColLen, hb]
  have hv0 : ¬ s.visible_items = 0 := by omega
  rw [hlen]
  simp only [App.update_scroll, hv0, if_false, hb, Option.bind_eq_bind, Option.some_bind,
    ite_false]
  congr 1
  congr 1
  simp only [specScrollTarget, Nat.min_def, ge_iff_le, gt_iff_lt]
  split_ifs <;> omega

/-- Witness for C7 at the startup state (visible count 5, empty selected
column, offset 0). -/
theorem update_scroll_spec_witness :
    app0.update_scroll =
      some { app0 with scroll_offset := min (specScrollTarget app0) (app0.selColLen - app0.visible_items) } :=
  update_scroll_spec app0 (by decide) (by decide)

/-! ## Helper lemmas about list indexing and the derived accessors -/

theorem get?_set_self (l : List α) (i : Nat) (a : α) (h : i < l.length) :
    (l.set i a).get? i = some a := by
  simp [List.getElem?_set_self', List.getElem?_eq_getElem h]

theorem get?_set_ne_idx (l : List α) (i j : Nat) (a : α) (h : i ≠ j) :
    (l.set i a).get? j = l.get? j := by
  simp [List.getElem?_set_ne h]

theorem get?_isSome_of_lt (l : List α) (i : Nat) (h : i < l.length) :
    ∃ a, l.get? i = some a := ⟨_, List.get?_eq_get h⟩

theorem columnCount_eq (s : App) {p : Project}
    (hp : s.projects.get? s.current_project = some p) :
    s.columnCount = p.board.columns.length := by
  rw [List.get?_eq_getElem?] at hp
  simp [App.columnCount, App.board, App.currentProject, hp]

theorem selColLen_eq (s : App) {p : Project}
    (hp : s.projects.get? s.current_project = some p) :
    s.selColLen = p.board.columnLen s.selected_column := by
  rw [List.get?_eq_getElem?] at hp
  simp [App.selColLen, App.board, App.currentProject, hp]

theorem colTasks_eq (s : App) {p : Project}
    (hp : s.projects.get? s.current_project = some p) (j : Nat) :
    s.colTasks j = (p.board.get_column j).map (fun c => c.tasks) := by
  rw [List.get?_eq_getElem?] at hp
  simp [App.colTasks, App.board, App.currentProject, hp]

theorem columnLen_eq_of_get (b : Board) {i : Nat} {col : BoardColumn}
    (h : b.columns.get? i = some col) :
    b.columnLen i = col.tasks.length := by
  rw [List.get?_eq_getElem?] at h
  simp [Board.columnLen, Board.get_column, h]

/-- Helper: `clamp_selection` computed for a valid current project. -/
theorem clamp_selection_eq (s : App) (hp : s.current_project < s.projects.length) :
    s.clamp_selection = some (
      if s.selColLen = 0 then { s with selected_index := 0, scroll_offset := 0 }
      else if s.selected_index ≥ s.selColLen then { s with selected_index := s.selColLen - 1 }
      else s) := by
  obtain ⟨b, hb⟩ := board_eq_some s hp
  have hlen : s.selColLen = b.columnLen s.selected_column := by
    simp [App.selColLen, hb]
  simp only [App.clamp_selection, hb, Option.bind_eq_bind, Option.some_bind, hlen]
  split_ifs <;> rfl

theorem lt_of_get?_some {l : List α} {i : Nat} {a : α} (h : l.get? i = some a) :
    i < l.length := by
  by_contra hn
  rw [List.get?_eq_getElem?, List.getElem?_eq_none (by omega)] at h
  exact Option.noConfusion h

theorem selColLen_congr {s1 s2 : App} (h1 : s1.projects = s2.projects)
    (h2 : s1.current_project = s2.current_project)
    (h3 : s1.selected_column = s2.selected_column) : s1.selColLen = s2.selColLen := by
  simp [App.selColLen, App.board, App.currentProject, h1, h2, h3]

theorem colTasks_congr {s1 s2 : App} (h1 : s1.projects = s2.projects)
    (h2 : s1.current_project = s2.current_project) (j : Nat) :
    s1.colTasks j = s2.colTasks j := by
  simp [App.colTasks, App.board, App.currentProject, h1, h2]

/-! ## C5: moving the selected task between adjacent columns -/

/-- Specification of a successful task move from column `src` (the selected
column) to column `dst` of the current board: the task at the selected index
leaves `src` with the order of the remaining tasks kept, lands at the end of
`dst`, every other column and every other project is unchanged, a save is
triggered, and the task selection is re-clamped. -/
def MoveSpec (s : App) (src dst : Nat) (result : Option App) : Prop :=
  ∃ s1 curT dstT moved,
    result = some s1 ∧
    s.colTasks src = some curT ∧
    s.colTasks dst = some dstT ∧
    curT.get? s.selected_index = some moved ∧
    s1.colTasks src = some (curT.eraseIdx s.selected_index) ∧
    s1.colTasks dst = some (dstT ++ [moved]) ∧
    (∀ j, j ≠ src → j ≠ dst → s1.colTasks j = s.colTasks j) ∧
    (∀ k, k ≠ s.current_project → s1.projects.get? k = s.projects.get? k) ∧
    s1.saveCount = s.saveCount + 1 ∧
    s1.selected_column = s.selected_column ∧
    (s1.selected_index < s1.selColLen ∨ (s1.selColLen = 0 ∧ s1.selected_index = 0))

/-- Helper: the common tail of both task-move operations.  `bX` is the board
after removing the selected task from `src` and appending it to `dst`; the
result is clamping followed by a save. -/
theorem move_core_spec (s : App) {p : Project}
    (hpeq : s.projects.get? s.current_project = some p)
    (hp : s.current_project < s.projects.length)
    {src dst : Nat} (hsrc : src = s.selected_column)
    {col dstCol : BoardColumn}
    (hcol1 : p.board.columns.get? src = some col)
    (hdst : p.board.columns.get? dst = some dstCol)
    (hne : src ≠ dst)
    {moved : Task} (hmv : col.tasks.get? s.selected_index = some moved)
    {remCol pushCol : BoardColumn}
    (hrem : remCol = { col with tasks := col.tasks.eraseIdx s.selected_index })
    (hpush : pushCol = { dstCol with tasks := dstCol.tasks ++ [moved] })
    {bX : Board}
    (hbX : bX = { columns := (p.board.columns.set src remCol).set dst pushCol })
    (result : Option App)
    (hres : result =
      (App.clamp_selection (s.withBoard p bX)).bind (fun s1 => some s1.save)) :
    MoveSpec s src dst result := by
  have hsrclt : src < p.board.columns.length := lt_of_get?_some hcol1
  have hdstlt : dst < p.board.columns.length := lt_of_get?_some hdst
  have hXproj : (s.withBoard p bX).projects.get? s.current_project =
      some { p with board := bX } := by
    simp only [App.withBoard]
    exact get?_set_self _ _ _ hp
  have hXp : (s.withBoard p bX).current_project < (s.withBoard p bX).projects.length := by
    simpa [App.withBoard] using hp
  have hbXsrc : bX.columns.get? src = some remCol := by
    rw [hbX]
    show ((p.board.columns.set src _).set dst _).get? src = _
    rw [get?_set_ne_idx _ _ _ _ (Ne.symm hne), get?_set_self _ _ _ (by simpa using hsrclt)]
  have hbXdst : bX.columns.get? dst = some pushCol := by
    rw [hbX]
    show ((p.board.columns.set src _).set dst _).get? dst = _
    rw [get?_set_self _ _ _ (by simpa using hdstlt)]
  have hbXother : ∀ j, j ≠ src → j ≠ dst → bX.columns.get? j = p.board.columns.get? j := by
    intro j hj1 hj2
    rw [hbX]
    show ((p.board.columns.set src _).set dst _).get? j = _
    rw [get?_set_ne_idx _ _ _ _ (Ne.symm hj2), get?_set_ne_idx _ _ _ _ (Ne.symm hj1)]
  have hXselcol : (s.withBoard p bX).selected_column = src := by
    simp [App.withBoard, hsrc]
  have hXsel : (s.withBoard p bX).selColLen = (col.tasks.eraseIdx s.selected_index).length := by
    rw [selColLen_eq _ hXproj]
    show bX.columnLen (s.withBoard p bX).selected_column = _
    rw [hXselcol, columnLen_eq_of_get _ hbXsrc, hrem]
  rw [clamp_selection_eq _ hXp] at hres
  simp only [Option.some_bind] at hres
  obtain ⟨sC, hres', hCproj, hCcp, hCcol, hCsave, hCidx⟩ :
      ∃ sC : App, result = some sC.save ∧
        sC.projects = (s.withBoard p bX).projects ∧
        sC.current_project = (s.withBoard p bX).current_project ∧
        sC.selected_column = (s.withBoard p bX).selected_column ∧
        sC.saveCount = (s.withBoard p bX).saveCount ∧
        (sC.selected_index < sC.selColLen ∨ (sC.selColLen = 0 ∧ sC.selected_index = 0)) := by
    rw [hres]
    split_ifs with h0 h1
    · refine ⟨_, rfl, rfl, rfl, rfl, rfl, Or.inr ⟨?_, rfl⟩⟩
      rw [selColLen_congr rfl rfl rfl]
      exact h0
    · refine ⟨_, rfl, rfl, rfl, rfl, rfl, Or.inl ?_⟩
      rw [selColLen_congr rfl rfl rfl]
      show (s.withBoard p bX).selColLen - 1 < (s.withBoard p bX).selColLen
      omega
    · exact ⟨_, rfl, rfl, rfl, rfl, rfl, Or.inl (Nat.lt_of_not_le h1)⟩
  have hCsave_proj : (App.save sC).projects = (s.withBoard p bX).projects := hCproj
  have hCsave_cp : (App.save sC).current_project = s.current_project := hCcp
  refine ⟨sC.save, col.tasks, dstCol.tasks, moved, hres', ?_, ?_, hmv, ?_, ?_, ?_, ?_, ?_, ?_, ?_⟩
  · rw [colTasks_eq s hpeq]
    show (p.board.columns.get? src).map (fun c => c.tasks) = some col.tasks
    rw [hcol1]
    rfl
  · rw [colTasks_eq s hpeq]
    show (p.board.columns.get? dst).map (fun c => c.tasks) = some dstCol.tasks
    rw [hdst]
    rfl
  · rw [colTasks_congr hCsave_proj hCsave_cp, colTasks_eq _ hXproj]
    show (bX.columns.get? src).map (fun c => c.tasks) = some (col.tasks.eraseIdx s.selected_index)
    rw [hbXsrc, hrem]
    rfl
  · rw [colTasks_congr hCsave_proj hCsave_cp, colTasks_eq _ hXproj]
    show (bX.columns.get? dst).map (fun c => c.tasks) = some (dstCol.tasks ++ [moved])
    rw [hbXdst, hpush]
    rfl
  · intro j hj1 hj2
    rw [colTasks_congr hCsave_proj hCsave_cp, colTasks_eq _ hXproj,
      colTasks_eq s hpeq]
    show (bX.columns.get? j).map (fun c => c.tasks) =
      (p.board.columns.get? j).map (fun c => c.tasks)
    rw [hbXother j hj1 hj2]
  · intro k hk
    show (App.save sC).projects.get? k = s.projects.get? k
    rw [hCsave_proj]
    show (s.projects.set s.current_project _).get? k = s.projects.get? k
    rw [get?_set_ne_idx _ _ _ _ (Ne.symm hk)]
  · show sC.saveCount + 1 = s.saveCount + 1
    rw [hCsave]
    rfl
  · show sC.selected_column = s.selected_column
    rw [hCcol]
    rfl
  · have h1 : (App.save sC).selColLen = sC.selColLen := selColLen_congr rfl rfl rfl
    have h2 : (App.save sC).selected_index = sC.selected_index := rfl
    rw [h1, h2]
    exact hCidx

/-- State whose sole project has a single column, with the selected column
index out of range (1, with 1 column). -/
def oneColOffSel : App :=
  { app0 with
      projects := [{ name := "P", board := { columns := [BoardColumn.new "todo" "To Do"] } }]
    , selected_column := 1 }

/-- C5 counterexample: in `oneColOffSel` no task exists at the selected
index (the selected column itself is absent), so the claim demands a silent
no-op; instead `move_task_backward` unwraps the absent column accessor and
panics (modelled as `none`). -/
theorem move_task_backward_panics_out_of_range :
    App.move_task_backward oneColOffSel = none := rfl

/-- C5 amended: for a valid current project and a selected column index in
range, `move_task_forward` is a no-op at the last column or when no task
exists at the selected index, `move_task_backward` is a no-op at the first
column or when no task exists at the selected index, and otherwise the move
removes the task at the selected index from the source column, appends it at
the end of the adjacent column (forward = next index, backward = previous
index), keeps the relative order of all other tasks in both columns, leaves
every other column and project unchanged, re-clamps the selection, and
triggers a save.  (With the selected column index out of range, the backward
move panics instead of no-opping, see the counterexample.) -/
theorem move_task_forward_backward_spec (s : App)
    (hp : s.current_project < s.projects.length)
    (hcol : s.selected_column < s.columnCount) :
    (s.selected_column + 1 = s.columnCount → s.move_task_forward = some s) ∧
    (s.selColLen ≤ s.selected_index → s.move_task_forward = some s) ∧
    (s.selected_column = 0 → s.move_task_backward = some s) ∧
    (0 < s.selected_column → s.selColLen ≤ s.selected_index → s.move_task_backward = some s) ∧
    (s.selected_column + 1 < s.columnCount → s.selected_index < s.selColLen →
      MoveSpec s s.selected_column (s.selected_column + 1) s.move_task_forward) ∧
    (0 < s.selected_column → s.selected_index < s.selColLen →
      MoveSpec s s.selected_column (s.selected_column - 1) s.move_task_backward) := by
  obtain ⟨p, hpeq⟩ := get?_isSome_of_lt s.projects s.current_project hp
  have hcpS : s.currentProject = some p := hpeq
  have hcc := columnCount_eq s hpeq
  have hscl := selColLen_eq s hpeq
  have hsellt : s.selected_column < p.board.columns.length := by rw [hcc] at hcol; exact hcol
  obtain ⟨col, hcolget⟩ := get?_isSome_of_lt p.board.columns s.selected_column hsellt
  have hcolgetE : p.board.columns[s.selected_column]? = some col := by
    rw [← List.get?_eq_getElem?]; exact hcolget
  have hsclcol : s.selColLen = col.tasks.length := by
    rw [hscl, columnLen_eq_of_get _ hcolget]
  refine ⟨?_, ?_, ?_, ?_, ?_, ?_⟩
  · intro hlast
    have hnlt : ¬ (s.selected_column + 1 < p.board.columns.length) := by
      rw [hcc] at hlast; omega
    simp [App.move_task_forward, hcpS, hnlt]
  · intro hge
    by_cases hlt : s.selected_column + 1 < p.board.columns.length
    · have hnoneE : col.tasks[s.selected_index]? = none :=
        List.getElem?_eq_none (by omega)
      simp [App.move_task_forward, hcpS, hlt, Board.get_column, hcolgetE, hnoneE]
    · simp [App.move_task_forward, hcpS, hlt]
  · intro h0
    simp [App.move_task_backward, h0]
  · intro hpos hge
    have hnoneE : col.tasks[s.selected_index]? = none :=
      List.getElem?_eq_none (by omega)
    simp [App.move_task_backward, hcpS, hpos, Board.get_column, hcolgetE, hnoneE]
  · intro hlt hidx
    have hlt1 : s.selected_column + 1 < p.board.columns.length := by rw [hcc] at hlt; exact hlt
    obtain ⟨dstCol, hdstget⟩ := get?_isSome_of_lt p.board.columns (s.selected_column + 1) hlt1
    have hdstgetE : p.board.columns[s.selected_column + 1]? = some dstCol := by
      rw [← List.get?_eq_getElem?]; exact hdstget
    have hidx1 : s.selected_index < col.tasks.length := by omega
    obtain ⟨moved, hmv⟩ := get?_isSome_of_lt col.tasks s.selected_index hidx1
    have hmvE : col.tasks[s.selected_index]? = some moved := by
      rw [← List.get?_eq_getElem?]; exact hmv
    have hb1E : (p.board.columns.set s.selected_column
        { col with tasks := col.tasks.eraseIdx s.selected_index })[s.selected_column + 1]?
        = some dstCol := by
      rw [← List.get?_eq_getElem?, get?_set_ne_idx _ _ _ _ (by omega)]
      exact hdstget
    have hdstval : p.board.columns[s.selected_column + 1] = dstCol := by
      have h2 := List.getElem?_eq_getElem (l := p.board.columns) hlt1
      rw [hdstgetE] at h2
      exact (Option.some.inj h2).symm
    refine move_core_spec s hpeq hp rfl hcolget hdstget (by omega) hmv rfl rfl rfl
      s.move_task_forward ?_
    simp [App.move_task_forward, hcpS, hlt1, Board.get_column, hcolgetE, hmvE, hb1E, hdstval]
  · intro hpos hidx
    have hdlt : s.selected_column - 1 < p.board.columns.length := by omega
    obtain ⟨dstCol, hdstget⟩ := get?_isSome_of_lt p.board.columns (s.selected_column - 1) hdlt
    have hdstgetE : p.board.columns[s.selected_column - 1]? = some dstCol := by
      rw [← List.get?_eq_getElem?]; exact hdstget
    have hidx1 : s.selected_index < col.tasks.length := by omega
    obtain ⟨moved, hmv⟩ := get?_isSome_of_lt col.tasks s.selected_index hidx1
    have hmvE : col.tasks[s.selected_index]? = some moved := by
      rw [← List.get?_eq_getElem?]; exact hmv
    have hb1E : (p.board.columns.set s.selected_column
        { col with tasks := col.tasks.eraseIdx s.selected_index })[s.selected_column - 1]?
        = some dstCol := by
      rw [← List.get?_eq_getElem?, get?_set_ne_idx _ _ _ _ (by omega)]
      exact hdstget
    have hdstval : p.board.columns[s.selected_column - 1] = dstCol := by
      have h2 := List.getElem?_eq_getElem (l := p.board.columns) hdlt
      rw [hdstgetE] at h2
      exact (Option.some.inj h2).symm
    refine move_core_spec s hpeq hp rfl hcolget hdstget (by omega) hmv rfl rfl rfl
      s.move_task_backward ?_
    simp [App.move_task_backward, hcpS, hpos, Board.get_column, hcolgetE, hmvE, hb1E, hdstval]

/-- Two-column single-project state with one task in the first column. -/
def moveWitnessApp : App :=
  { app0 with projects := [{ name := "P", board := { columns :=
      [ { id := "a", name := "A", tasks := [Task.new "t"] }
      , BoardColumn.new "b" "B" ] } }] }

/-- Witness for C5: moving the sole task of the first column forward in the
concrete two-column state satisfies the move specification. -/
theorem move_task_forward_backward_spec_witness :
    MoveSpec moveWitnessApp 0 1 (App.move_task_forward moveWitnessApp) := by
  have h := (move_task_forward_backward_spec moveWitnessApp (by decide) (by decide)).2.2.2.2.1
    (by decide) (by decide)
  simpa using h

/-! ## C6: navigation keeps the selection indices in bounds -/

/-- Navigation invariant: the selected column index is within
`[0, column_count)` and the selected task index is within `[0, len)` of the
selected column, or `0` when that column is empty. -/
def NavInv (s : App) : Prop :=
  s.selected_column < s.columnCount ∧
  (s.selected_index < s.selColLen ∨ (s.selColLen = 0 ∧ s.selected_index = 0))

theorem columnCount_congr {s1 s2 : App} (h1 : s1.projects = s2.projects)
    (h2 : s1.current_project = s2.current_project) : s1.columnCount = s2.columnCount := by
  simp [App.columnCount, App.board, App.currentProject, h1, h2]

theorem cp_lt_of_columnCount_pos (s : App) (h : 0 < s.columnCount) :
    s.current_project < s.projects.length := by
  by_contra hn
  have hnone : s.projects.get? s.current_project = none := by
    rw [List.get?_eq_getElem?]
    exact List.getElem?_eq_none (by omega)
  rw [App.columnCount, App.board, App.currentProject, hnone] at h
  simp at h

theorem clamp_selection_navInv (s : App) (hp : s.current_project < s.projects.length)
    (hcol : s.selected_column < s.columnCount) :
    ∃ s1, s.clamp_selection = some s1 ∧ NavInv s1 := by
  rw [clamp_selection_eq s hp]
  refine ⟨_, rfl, ?_, ?_⟩
  · have hcount : (if s.selColLen = 0 then
        { s with selected_index := 0, scroll_offset := 0 }
      else if s.selected_index ≥ s.selColLen then
        { s with selected_index := s.selColLen - 1 }
      else s).columnCount = s.columnCount := by
      apply columnCount_congr <;> split_ifs <;> rfl
    have hselc : (if s.selColLen = 0 then
        { s with selected_index := 0, scroll_offset := 0 }
      else if s.selected_index ≥ s.selColLen then
        { s with selected_index := s.selColLen - 1 }
      else s).selected_column = s.selected_column := by
      split_ifs <;> rfl
    rw [hcount, hselc]
    exact hcol
  · have hlen : (if s.selColLen = 0 then
        { s with selected_index := 0, scroll_offset := 0 }
      else if s.selected_index ≥ s.selColLen then
        { s with selected_index := s.selColLen - 1 }
      else s).selColLen = s.selColLen := by
      apply selColLen_congr <;> split_ifs <;> rfl
    rw [hlen]
    split_ifs with h0 h1
    · exact Or.inr ⟨h0, rfl⟩
    · left
      show s.selColLen - 1 < s.selColLen
      omega
    · exact Or.inl (Nat.lt_of_not_le h1)

theorem nav_move_up (s : App) (h : NavInv s) : NavInv s.move_up := by
  obtain ⟨hc, hi⟩ := h
  have hcount : s.move_up.columnCount = s.columnCount := by
    apply columnCount_congr <;> simp [App.move_up] <;> split_ifs <;> rfl
  have hselc : s.move_up.selected_column = s.selected_column := by
    simp only [App.move_up]; split_ifs <;> rfl
  have hlen : s.move_up.selColLen = s.selColLen := by
    apply selColLen_congr <;> simp only [App.move_up] <;> split_ifs <;> rfl
  refine ⟨by rw [hcount, hselc]; exact hc, ?_⟩
  rw [hlen]
  simp only [App.move_up]
  split_ifs with hpos
  · show s.selected_index - 1 < s.selColLen ∨ _
    left
    omega
  · exact hi

theorem nav_move_down (s : App) (h : NavInv s) :
    ∃ s1, s.move_down = some s1 ∧ NavInv s1 := by
  obtain ⟨hc, hi⟩ := h
  have hp := cp_lt_of_columnCount_pos s (by omega)
  obtain ⟨p, hpeq⟩ := get?_isSome_of_lt s.projects s.current_project hp
  have hb : s.board = some p.board := by
    rw [List.get?_eq_getElem?] at hpeq
    simp [App.board, App.currentProject, hpeq]
  have hlen : s.selColLen = p.board.columnLen s.selected_column := selColLen_eq s hpeq
  simp only [App.move_down, hb, Option.bind_eq_bind, Option.some_bind]
  split_ifs with hcond
  · refine ⟨_, rfl, ?_, ?_⟩
    · have h1 : ({ s with selected_index := s.selected_index + 1 } : App).columnCount
          = s.columnCount := columnCount_congr rfl rfl
      rw [h1]
      exact hc
    · have h2 : ({ s with selected_index := s.selected_index + 1 } : App).selColLen
          = s.selColLen := selColLen_congr rfl rfl rfl
      rw [h2]
      left
      show s.selected_index + 1 < s.selColLen
      rw [hlen]
      omega
  · exact ⟨s, rfl, hc, hi⟩

theorem nav_move_left (s : App) (h : NavInv s) :
    ∃ s1, s.move_left = some s1 ∧ NavInv s1 := by
  obtain ⟨hc, hi⟩ := h
  have hp := cp_lt_of_columnCount_pos s (by omega)
  simp only [App.move_left]
  split_ifs with hpos
  · have hc2 : ({ s with selected_column := s.selected_column - 1 } : App).selected_column <
        ({ s with selected_column := s.selected_column - 1 } : App).columnCount := by
      have : ({ s with selected_column := s.selected_column - 1 } : App).columnCount
          = s.columnCount := columnCount_congr rfl rfl
      rw [this]
      show s.selected_column - 1 < s.columnCount
      omega
    exact clamp_selection_navInv _ hp hc2
  · exact ⟨s, rfl, hc, hi⟩

theorem nav_move_right (s : App) (h : NavInv s) :
    ∃ s1, s.move_right = some s1 ∧ NavInv s1 := by
  obtain ⟨hc, hi⟩ := h
  have hp := cp_lt_of_columnCount_pos s (by omega)
  obtain ⟨p, hpeq⟩ := get?_isSome_of_lt s.projects s.current_project hp
  have hb : s.board = some p.board := by
    rw [List.get?_eq_getElem?] at hpeq
    simp [App.board, App.currentProject, hpeq]
  have hcc : s.columnCount = p.board.columns.length := columnCount_eq s hpeq
  have hsub : usizeSub p.board.columns.length 1 = some (p.board.columns.length - 1) := by
    rw [usizeSub, if_pos (by omega)]
  simp only [App.move_right, hb, Option.bind_eq_bind, Option.some_bind, hsub]
  split_ifs with hcond
  · have hc2 : ({ s with selected_column := s.selected_column + 1 } : App).selected_column <
        ({ s with selected_column := s.selected_column + 1 } : App).columnCount := by
      have : ({ s with selected_column := s.selected_column + 1 } : App).columnCount
          = s.columnCount := columnCount_congr rfl rfl
      rw [this]
      show s.selected_column + 1 < s.columnCount
      omega
    exact clamp_selection_navInv _ hp hc2
  · exact ⟨s, rfl, hc, hi⟩

/-- C6: starting from any state whose selection satisfies the bounds
invariant, any finite sequence of the four navigation intents runs without
panic and preserves the invariant: the selected column index stays within
`[0, column_count)` and the selected task index stays within `[0, len)` of
the then-selected column, or equals 0 when that column is empty. -/
theorem navigation_selection_in_bounds (s : App) (intents : List Intent)
    (hnav : ∀ i ∈ intents,
      i = Intent.moveUp ∨ i = Intent.moveDown ∨ i = Intent.moveLeft ∨ i = Intent.moveRight)
    (hinv : NavInv s) :
    ∃ s1, steps intents s = some s1 ∧ NavInv s1 := by
  induction intents generalizing s with
  | nil => exact ⟨s, rfl, hinv⟩
  | cons i is ih =>
    have hstep : ∃ s1, step i s = some s1 ∧ NavInv s1 := by
      rcases hnav i (by simp) with h | h | h | h
      · subst h; exact ⟨s.move_up, rfl, nav_move_up s hinv⟩
      · subst h; exact nav_move_down s hinv
      · subst h; exact nav_move_left s hinv
      · subst h; exact nav_move_right s hinv
    obtain ⟨s1, hs1, hinv1⟩ := hstep
    obtain ⟨s2, hs2, hinv2⟩ := ih s1 (fun j hj => hnav j (by simp [hj])) hinv1
    exact ⟨s2, by simp [steps, hs1, hs2], hinv2⟩

/-- Witness for C6: from the startup state, the sequence right, down, left,
up keeps the selection in bounds. -/
theorem navigation_selection_in_bounds_witness :
    ∃ s1, steps [Intent.moveRight, Intent.moveDown, Intent.moveLeft, Intent.moveUp] app0
        = some s1 ∧ NavInv s1 :=
  navigation_selection_in_bounds app0
    [Intent.moveRight, Intent.moveDown, Intent.moveLeft, Intent.moveUp]
    (by intro i hi; fin_cases hi <;> simp)
    (by constructor
        · decide
        · right; exact ⟨by decide, by decide⟩)


/-! ## C4: the at-least-one-column invariant and delete_column -/

/-- Every project board in the state has at least one column. -/
def AllBoardsNonempty (s : App) : Prop :=
  ∀ p ∈ s.projects, 0 < p.board.columns.length

theorem allBoards_of_eq {s s1 : App} (h : AllBoardsNonempty s)
    (hproj : s1.projects = s.projects) : AllBoardsNonempty s1 := by
  intro p hp
  rw [hproj] at hp
  exact h p hp

theorem allBoards_set {s : App} (h : AllBoardsNonempty s) {q : Project}
    (hq : 0 < q.board.columns.length) {n : Nat} {s1 : App}
    (hproj : s1.projects = s.projects.set n q) : AllBoardsNonempty s1 := by
  intro p hp
  rw [hproj] at hp
  rcases List.mem_or_eq_of_mem_set hp with h1 | h1
  · exact h p h1
  · rw [h1]; exact hq

theorem allBoards_erase {s : App} (h : AllBoardsNonempty s) {n : Nat} {s1 : App}
    (hproj : s1.projects = s.projects.eraseIdx n) : AllBoardsNonempty s1 := by
  intro p hp
  rw [hproj] at hp
  exact h p ((List.eraseIdx_sublist _ _).subset hp)

theorem cp_lt_of_board_some {s : App} {b : Board} (hb : s.board = some b) :
    s.current_project < s.projects.length := by
  by_contra hn
  have hnone : s.projects.get? s.current_project = none := by
    rw [List.get?_eq_getElem?]
    exact List.getElem?_eq_none (by omega)
  rw [App.board, App.currentProject, hnone] at hb
  exact Option.noConfusion hb

theorem clamp_selection_projects {s s1 : App} (h : s.clamp_selection = some s1) :
    s1.projects = s.projects ∧ s1.current_project = s.current_project ∧
    s1.saveCount = s.saveCount ∧ s1.selected_column = s.selected_column := by
  cases hb : s.board with
  | none => simp [App.clamp_selection, hb] at h
  | some b =>
    rw [clamp_selection_eq s (cp_lt_of_board_some hb)] at h
    obtain rfl := Option.some.inj h
    split_ifs <;> exact ⟨rfl, rfl, rfl, rfl⟩

theorem update_scroll_projects {s s1 : App} (h : s.update_scroll = some s1) :
    s1.projects = s.projects ∧ s1.current_project = s.current_project ∧
    s1.saveCount = s.saveCount := by
  unfold App.update_scroll at h
  by_cases hv : s.visible_items = 0
  · rw [if_pos hv] at h
    obtain rfl := Option.some.inj h
    exact ⟨rfl, rfl, rfl⟩
  · rw [if_neg hv] at h
    cases hb : s.board with
    | none => rw [hb] at h; simp at h
    | some b =>
      rw [hb] at h
      simp only [Option.bind_eq_bind, Option.some_bind] at h
      obtain rfl := Option.some.inj h
      exact ⟨rfl, rfl, rfl⟩


theorem optionBindEqSome {α β : Type} {x : Option α} {f : α → Option β} {b : β}
    (h : x.bind f = some b) : ∃ a, x = some a ∧ f a = some b := by
  cases x with
  | none => exact Option.noConfusion h
  | some a => exact ⟨a, rfl, h⟩

theorem allBoards_move_task_forward {s s1 : App} (h : AllBoardsNonempty s)
    (hs : s.move_task_forward = some s1) : AllBoardsNonempty s1 := by
  unfold App.move_task_forward at hs
  cases hcp : s.currentProject with
  | none => rw [hcp] at hs; simp at hs
  | some p =>
    have hmem : p ∈ s.projects := List.get?_mem hcp
    rw [hcp] at hs
    simp only [Option.bind_eq_bind, Option.some_bind] at hs
    by_cases hlt : s.selected_column + 1 < p.board.columns.length
    · rw [if_pos hlt] at hs
      cases hcol : p.board.get_column s.selected_column with
      | none => rw [hcol] at hs; simp at hs
      | some col =>
        rw [hcol] at hs
        simp only [Option.some_bind] at hs
        cases hmv : col.tasks.get? s.selected_index with
        | none =>
            rw [hmv] at hs
            obtain rfl := Option.some.inj hs
            exact h
        | some task =>
            rw [hmv] at hs
            simp only [Option.some_bind] at hs
            cases hb1 : (Board.mk (p.board.columns.set s.selected_column
                { col with tasks := col.tasks.eraseIdx s.selected_index })).get_column
                (s.selected_column + 1) with
            | none => rw [hb1] at hs; simp at hs
            | some nextCol =>
                rw [hb1] at hs
                simp only [Option.some_bind, Option.bind_eq_some] at hs
                obtain ⟨sc, hsc, hsave⟩ := hs
                obtain rfl := Option.some.inj hsave
                obtain ⟨hproj, -, -, -⟩ := clamp_selection_projects hsc
                refine allBoards_set h ?_ hproj
                simpa using h p hmem
    · rw [if_neg hlt] at hs
      obtain rfl := Option.some.inj hs
      exact h

theorem listSwap_length {l : List α} {i j : Nat} {l2 : List α}
    (h : listSwap l i j = some l2) : l2.length = l.length := by
  unfold listSwap at h
  cases h1 : l.get? i with
  | none => rw [h1] at h; exact Option.noConfusion h
  | some a =>
    cases h2 : l.get? j with
    | none => rw [h1, h2] at h; exact Option.noConfusion h
    | some b =>
      rw [h1, h2] at h
      obtain rfl := Option.some.inj h
      simp

theorem allBoards_append {s : App} (h : AllBoardsNonempty s) {q : Project}
    (hq : 0 < q.board.columns.length) {s1 : App}
    (hproj : s1.projects = s.projects ++ [q]) : AllBoardsNonempty s1 := by
  intro p hp
  rw [hproj] at hp
  rcases List.mem_append.mp hp with h1 | h1
  · exact h p h1
  · rw [List.mem_singleton.mp h1]; exact hq

theorem move_down_projects {s s1 : App} (hs : s.move_down = some s1) :
    s1.projects = s.projects := by
  unfold App.move_down at hs
  cases hb : s.board with
  | none => rw [hb] at hs; simp at hs
  | some b =>
    rw [hb] at hs
    simp only [Option.bind_eq_bind, Option.some_bind] at hs
    split_ifs at hs <;> (obtain rfl := Option.some.inj hs; rfl)

theorem move_left_projects {s s1 : App} (hs : s.move_left = some s1) :
    s1.projects = s.projects := by
  unfold App.move_left at hs
  split_ifs at hs
  · exact (clamp_selection_projects hs).1
  · obtain rfl := Option.some.inj hs; rfl

theorem move_right_projects {s s1 : App} (hs : s.move_right = some s1) :
    s1.projects = s.projects := by
  unfold App.move_right at hs
  cases hb : s.board with
  | none => rw [hb] at hs; simp at hs
  | some b =>
    rw [hb] at hs
    simp only [Option.bind_eq_bind, Option.some_bind] at hs
    cases hsub : usizeSub b.columns.length 1 with
    | none => rw [hsub] at hs; simp at hs
    | some lim =>
      rw [hsub] at hs
      simp only [Option.some_bind] at hs
      split_ifs at hs
      · exact (clamp_selection_projects hs).1
      · obtain rfl := Option.some.inj hs; rfl

theorem start_renaming_column_projects {s s1 : App}
    (hs : s.start_renaming_column = some s1) : s1.projects = s.projects := by
  unfold App.start_renaming_column at hs
  cases hb : s.board with
  | none => rw [hb] at hs; simp at hs
  | some b =>
    rw [hb] at hs
    simp only [Option.bind_eq_bind, Option.some_bind] at hs
    cases hcol : b.get_column s.selected_column with
    | none => rw [hcol] at hs; obtain rfl := Option.some.inj hs; rfl
    | some col => rw [hcol] at hs; obtain rfl := Option.some.inj hs; rfl

theorem start_adding_tag_projects {s s1 : App}
    (hs : s.start_adding_tag = some s1) : s1.projects = s.projects := by
  unfold App.start_adding_tag at hs
  cases hb : s.board with
  | none => rw [hb] at hs; simp at hs
  | some b =>
    rw [hb] at hs
    simp only [Option.bind_eq_bind, Option.some_bind] at hs
    cases hcol : b.get_column s.selected_column with
    | none => rw [hcol] at hs; obtain rfl := Option.some.inj hs; rfl
    | some col =>
      rw [hcol] at hs
      simp only [Option.pure_def] at hs
      split_ifs at hs <;> (obtain rfl := Option.some.inj hs; rfl)

theorem open_task_projects {s s1 : App}
    (hs : s.open_task = some s1) : s1.projects = s.projects := by
  unfold App.open_task at hs
  cases hb : s.board with
  | none => rw [hb] at hs; simp at hs
  | some b =>
    rw [hb] at hs
    simp only [Option.bind_eq_bind, Option.some_bind] at hs
    cases hcol : b.get_column s.selected_column with
    | none => rw [hcol] at hs; obtain rfl := Option.some.inj hs; rfl
    | some col =>
      rw [hcol] at hs
      simp only [Option.pure_def] at hs
      split_ifs at hs <;> (obtain rfl := Option.some.inj hs; rfl)

theorem start_editing_title_projects {s s1 : App}
    (hs : s.start_editing_title = some s1) : s1.projects = s.projects := by
  unfold App.start_editing_title at hs
  cases hb : s.board with
  | none => rw [hb] at hs; simp at hs
  | some b =>
    rw [hb] at hs
    simp only [Option.bind_eq_bind, Option.some_bind] at hs
    cases hcol : b.get_column s.selected_column with
    | none => rw [hcol] at hs; obtain rfl := Option.some.inj hs; rfl
    | some col =>
      rw [hcol] at hs
      simp only [Option.pure_def] at hs
      cases hmv : col.tasks.get? s.selected_index with
      | none => rw [hmv] at hs; obtain rfl := Option.some.inj hs; rfl
      | some t => rw [hmv] at hs; obtain rfl := Option.some.inj hs; rfl

theorem start_editing_description_projects {s s1 : App}
    (hs : s.start_editing_description = some s1) : s1.projects = s.projects := by
  unfold App.start_editing_description at hs
  cases hb : s.board with
  | none => rw [hb] at hs; simp at hs
  | some b =>
    rw [hb] at hs
    simp only [Option.bind_eq_bind, Option.some_bind] at hs
    cases hcol : b.get_column s.selected_column with
    | none => rw [hcol] at hs; obtain rfl := Option.some.inj hs; rfl
    | some col =>
      rw [hcol] at hs
      simp only [Option.pure_def] at hs
      cases hmv : col.tasks.get? s.selected_index with
      | none => rw [hmv] at hs; obtain rfl := Option.some.inj hs; rfl
      | some t => rw [hmv] at hs; obtain rfl := Option.some.inj hs; rfl

theorem move_project_down_projects {s s1 : App}
    (hs : s.move_project_down = some s1) : s1.projects = s.projects := by
  unfold App.move_project_down at hs
  cases hsub : usizeSub s.projects.length 1 with
  | none => rw [hsub] at hs; simp at hs
  | some lim =>
    rw [hsub] at hs
    simp only [Option.bind_eq_bind, Option.some_bind] at hs
    split_ifs at hs <;> (obtain rfl := Option.some.inj hs; rfl)

theorem allBoards_move_task_backward {s s1 : App} (h : AllBoardsNonempty s)
    (hs : s.move_task_backward = some s1) : AllBoardsNonempty s1 := by
  unfold App.move_task_backward at hs
  by_cases hpos : s.selected_column > 0
  · rw [if_pos hpos] at hs
    cases hcp : s.currentProject with
    | none => rw [hcp] at hs; simp at hs
    | some p =>
      have hmem : p ∈ s.projects := List.get?_mem hcp
      rw [hcp] at hs
      simp only [Option.bind_eq_bind, Option.some_bind] at hs
      cases hcol : p.board.get_column s.selected_column with
      | none => rw [hcol] at hs; simp at hs
      | some col =>
        rw [hcol] at hs
        simp only [Option.some_bind] at hs
        cases hmv : col.tasks.get? s.selected_index with
        | none =>
            rw [hmv] at hs
            obtain rfl := Option.some.inj hs
            exact h
        | some task =>
            rw [hmv] at hs
            simp only [Option.some_bind] at hs
            cases hb1 : (Board.mk (p.board.columns.set s.selected_column
                { col with tasks := col.tasks.eraseIdx s.selected_index })).get_column
                (s.selected_column - 1) with
            | none => rw [hb1] at hs; simp at hs
            | some prevCol =>
                rw [hb1] at hs
                simp only [Option.some_bind, Option.bind_eq_some] at hs
                obtain ⟨sc, hsc, hsave⟩ := hs
                obtain rfl := Option.some.inj hsave
                obtain ⟨hproj, -, -, -⟩ := clamp_selection_projects hsc
                refine allBoards_set h ?_ hproj
                simpa using h p hmem
  · rw [if_neg hpos] at hs
    obtain rfl := Option.some.inj hs
    exact h

theorem allBoards_delete_task {s s1 : App} (h : AllBoardsNonempty s)
    (hs : s.delete_task = some s1) : AllBoardsNonempty s1 := by
  unfold App.delete_task at hs
  cases hcp : s.currentProject with
  | none => rw [hcp] at hs; simp at hs
  | some p =>
    have hmem : p ∈ s.projects := List.get?_mem hcp
    rw [hcp] at hs
    simp only [Option.bind_eq_bind, Option.some_bind] at hs
    cases hcol : p.board.get_column s.selected_column with
    | none => rw [hcol] at hs; simp at hs
    | some col =>
      rw [hcol] at hs
      simp only [Option.some_bind] at hs
      split_ifs at hs with hidx
      · simp only [Option.bind_eq_some] at hs
        obtain ⟨sc, hsc, hsave⟩ := hs
        obtain rfl := Option.some.inj hsave
        obtain ⟨hproj, -, -, -⟩ := clamp_selection_projects hsc
        refine allBoards_set h ?_ hproj
        simpa using h p hmem
      · obtain rfl := Option.some.inj hs
        exact h

theorem allBoards_remove_tag {s s1 : App} (i : Nat) (h : AllBoardsNonempty s)
    (hs : s.remove_tag i = some s1) : AllBoardsNonempty s1 := by
  unfold App.remove_tag at hs
  cases hcp : s.currentProject with
  | none => rw [hcp] at hs; simp at hs
  | some p =>
    have hmem : p ∈ s.projects := List.get?_mem hcp
    rw [hcp] at hs
    simp only [Option.bind_eq_bind, Option.some_bind] at hs
    cases hcol : p.board.get_column s.selected_column with
    | none => rw [hcol] at hs; obtain rfl := Option.some.inj hs; exact h
    | some col =>
      rw [hcol] at hs
      simp only [Option.pure_def] at hs
      cases hmv : col.tasks.get? s.selected_index with
      | none => rw [hmv] at hs; obtain rfl := Option.some.inj hs; exact h
      | some task =>
        rw [hmv] at hs
        simp only [Option.some.injEq] at hs
        split_ifs at hs with htag
        · obtain rfl := Option.some.inj hs
          refine allBoards_set h ?_ rfl
          simpa using h p hmem
        · obtain rfl := Option.some.inj hs
          exact h


theorem allBoards_move_column_left {s s1 : App} (h : AllBoardsNonempty s)
    (hs : s.move_column_left = some s1) : AllBoardsNonempty s1 := by
  unfold App.move_column_left at hs
  split_ifs at hs with hpos
  · cases hcp : s.currentProject with
    | none => rw [hcp] at hs; simp at hs
    | some p =>
      have hmem : p ∈ s.projects := List.get?_mem hcp
      rw [hcp] at hs
      simp only [Option.bind_eq_bind, Option.some_bind] at hs
      cases hsw : listSwap p.board.columns s.selected_column (s.selected_column - 1) with
      | none => rw [hsw] at hs; simp at hs
      | some cols =>
        rw [hsw] at hs
        simp only [Option.some_bind] at hs
        obtain rfl := Option.some.inj hs
        refine allBoards_set h ?_ rfl
        show 0 < cols.length
        rw [listSwap_length hsw]
        exact h p hmem
  · obtain rfl := Option.some.inj hs
    exact h

theorem allBoards_move_column_right {s s1 : App} (h : AllBoardsNonempty s)
    (hs : s.move_column_right = some s1) : AllBoardsNonempty s1 := by
  unfold App.move_column_right at hs
  cases hcp : s.currentProject with
  | none => rw [hcp] at hs; simp at hs
  | some p =>
    have hmem : p ∈ s.projects := List.get?_mem hcp
    rw [hcp] at hs
    simp only [Option.bind_eq_bind, Option.some_bind] at hs
    cases hsub : usizeSub p.board.columns.length 1 with
    | none => rw [hsub] at hs; simp at hs
    | some lim =>
      rw [hsub] at hs
      simp only [Option.some_bind] at hs
      split_ifs at hs with hlt
      · cases hsw : listSwap p.board.columns s.selected_column (s.selected_column + 1) with
        | none => rw [hsw] at hs; simp at hs
        | some cols =>
          rw [hsw] at hs
          simp only [Option.some_bind] at hs
          obtain rfl := Option.some.inj hs
          refine allBoards_set h ?_ rfl
          show 0 < cols.length
          rw [listSwap_length hsw]
          exact h p hmem
      · obtain rfl := Option.some.inj hs
        exact h

theorem allBoards_delete_column {s s1 : App} (h : AllBoardsNonempty s)
    (hs : s.delete_column = some s1) : AllBoardsNonempty s1 := by
  unfold App.delete_column at hs
  cases hcp : s.currentProject with
  | none => rw [hcp] at hs; simp at hs
  | some p =>
    have hmem : p ∈ s.projects := List.get?_mem hcp
    rw [hcp] at hs
    simp only [Option.bind_eq_bind, Option.some_bind] at hs
    split_ifs at hs with hlen hemp hre
    · obtain rfl := Option.some.inj hs
      exact h
    · simp only [Option.bind_eq_some] at hs
      obtain ⟨sc, hsc, hsave⟩ := hs
      obtain rfl := Option.some.inj hsave
      obtain ⟨hproj, -, -, -⟩ := clamp_selection_projects hsc
      refine allBoards_set h ?_ hproj
      show 0 < (p.board.columns.eraseIdx s.selected_column).length
      rw [List.length_eraseIdx]
      split_ifs with hin
      · omega
      · exact h p hmem
    · simp only [Option.bind_eq_some] at hs
      obtain ⟨sc, hsc, hsave⟩ := hs
      obtain rfl := Option.some.inj hsave
      obtain ⟨hproj, -, -, -⟩ := clamp_selection_projects hsc
      refine allBoards_set h ?_ hproj
      show 0 < (p.board.columns.eraseIdx s.selected_column).length
      rw [List.length_eraseIdx]
      split_ifs with hin
      · omega
      · exact h p hmem
    · obtain rfl := Option.some.inj hs
      exact h

theorem allBoards_delete_project {s s1 : App} (h : AllBoardsNonempty s)
    (hs : s.delete_project = some s1) : AllBoardsNonempty s1 := by
  unfold App.delete_project at hs
  by_cases hlen : s.projects.length > 1
  · rw [if_pos hlen] at hs
    cases hget : s.projects.get? s.selected_project_index with
    | none => rw [hget] at hs; simp at hs
    | some q =>
      rw [hget] at hs
      simp only [Option.bind_eq_bind, Option.some_bind] at hs
      split_ifs at hs <;> (obtain rfl := Option.some.inj hs; exact allBoards_erase h rfl)
  · rw [if_neg hlen] at hs
    obtain rfl := Option.some.inj hs
    exact h

theorem allBoards_submit_input {s s1 : App} (h : AllBoardsNonempty s)
    (hs : s.submit_input = some s1) : AllBoardsNonempty s1 := by
  cases hm : s.input_mode with
  | AddingTask =>
    by_cases hbuf : s.input_buffer = ""
    · simp only [App.submit_input, Option.pure_def, Option.bind_eq_bind, hm, hbuf, ne_eq, not_true_eq_false, if_false,
        Option.some_bind, Option.some.injEq] at hs
      subst hs
      exact h
    · cases hcp : s.currentProject with
      | none => simp [App.submit_input, hm, hbuf, hcp] at hs
      | some p =>
        have hmem : p ∈ s.projects := List.get?_mem hcp
        cases hcol : p.board.get_column s.selected_column with
        | none => simp [App.submit_input, hm, hbuf, hcp, hcol] at hs
        | some col =>
          simp [App.submit_input, hm, hbuf, hcp, hcol] at hs
          obtain ⟨sB, hB, hfin⟩ := optionBindEqSome hs
          obtain rfl := Option.some.inj hfin
          obtain ⟨hproj, -, -⟩ := update_scroll_projects hB
          refine allBoards_set h ?_ hproj
          simpa using h p hmem
  | AddingTag =>
    by_cases hbuf : s.input_buffer = ""
    · simp only [App.submit_input, Option.pure_def, Option.bind_eq_bind, hm, hbuf, ne_eq, not_true_eq_false, if_false,
        Option.some_bind, Option.some.injEq] at hs
      subst hs
      exact h
    · cases hcp : s.currentProject with
      | none => simp [App.submit_input, hm, hbuf, hcp] at hs
      | some p =>
        have hmem : p ∈ s.projects := List.get?_mem hcp
        cases hcol : p.board.get_column s.selected_column with
        | none => simp [App.submit_input, hm, hbuf, hcp, hcol] at hs
        | some col =>
          cases hmv : col.tasks.get? s.selected_index with
          | none =>
              simp only [App.submit_input, Option.pure_def, Option.bind_eq_bind, hm, hbuf, ne_eq, not_false_eq_true, if_true,
                hcp, hcol, hmv, Option.some_bind, Option.bind_eq_bind,
                Option.some.injEq] at hs
              subst hs
              exact h
          | some t =>
              simp only [App.submit_input, Option.pure_def, Option.bind_eq_bind, hm, hbuf, ne_eq, not_false_eq_true, if_true,
                hcp, hcol, hmv, Option.some_bind, Option.bind_eq_bind,
                Option.some.injEq] at hs
              subst hs
              refine allBoards_set h ?_ rfl
              simpa using h p hmem
  | EditingTitle =>
    by_cases hbuf : s.input_buffer = ""
    · simp only [App.submit_input, Option.pure_def, Option.bind_eq_bind, hm, hbuf, ne_eq, not_true_eq_false, if_false,
        Option.some_bind, Option.some.injEq] at hs
      subst hs
      exact h
    · cases hcp : s.currentProject with
      | none => simp [App.submit_input, hm, hbuf, hcp] at hs
      | some p =>
        have hmem : p ∈ s.projects := List.get?_mem hcp
        cases hcol : p.board.get_column s.selected_column with
        | none => simp [App.submit_input, hm, hbuf, hcp, hcol] at hs
        | some col =>
          cases hmv : col.tasks.get? s.selected_index with
          | none =>
              simp only [App.submit_input, Option.pure_def, Option.bind_eq_bind, hm, hbuf, ne_eq, not_false_eq_true, if_true,
                hcp, hcol, hmv, Option.some_bind, Option.bind_eq_bind,
                Option.some.injEq] at hs
              subst hs
              exact h
          | some t =>
              simp only [App.submit_input, Option.pure_def, Option.bind_eq_bind, hm, hbuf, ne_eq, not_false_eq_true, if_true,
                hcp, hcol, hmv, Option.some_bind, Option.bind_eq_bind,
                Option.some.injEq] at hs
              subst hs
              refine allBoards_set h ?_ rfl
              simpa using h p hmem
  | EditingDescription =>
    cases hcp : s.currentProject with
    | none => simp [App.submit_input, hm, hcp] at hs
    | some p =>
      have hmem : p ∈ s.projects := List.get?_mem hcp
      cases hcol : p.board.get_column s.selected_column with
      | none => simp [App.submit_input, hm, hcp, hcol] at hs
      | some col =>
        cases hmv : col.tasks.get? s.selected_index with
        | none =>
            simp only [App.submit_input, Option.pure_def, Option.bind_eq_bind, hm, hcp, hcol, hmv, Option.some_bind,
              Option.bind_eq_bind, Option.some.injEq] at hs
            subst hs
            exact h
        | some t =>
            simp only [App.submit_input, Option.pure_def, Option.bind_eq_bind, hm, hcp, hcol, hmv, Option.some_bind,
              Option.bind_eq_bind, Option.some.injEq] at hs
            subst hs
            refine allBoards_set h ?_ rfl
            simpa using h p hmem
  | AddingProject =>
    by_cases hbuf : s.input_buffer = ""
    · simp only [App.submit_input, Option.pure_def, Option.bind_eq_bind, hm, hbuf, ne_eq, not_true_eq_false, if_false,
        Option.some.injEq] at hs
      subst hs
      exact h
    · simp only [App.submit_input, Option.pure_def, Option.bind_eq_bind, hm, hbuf, ne_eq, not_false_eq_true, if_true,
        Option.some.injEq] at hs
      subst hs
      refine allBoards_append h ?_ rfl
      exact Nat.succ_pos 3
  | AddingColumn =>
    by_cases hbuf : s.input_buffer = ""
    · simp only [App.submit_input, Option.pure_def, Option.bind_eq_bind, hm, hbuf, ne_eq, not_true_eq_false, if_false,
        Option.some_bind, Option.some.injEq] at hs
      subst hs
      exact h
    · cases hcp : s.currentProject with
      | none => simp [App.submit_input, hm, hbuf, hcp] at hs
      | some p =>
        have hmem : p ∈ s.projects := List.get?_mem hcp
        simp only [App.submit_input, Option.pure_def, Option.bind_eq_bind, hm, hbuf, ne_eq, not_false_eq_true, if_true,
          hcp, Option.some_bind, Option.bind_eq_bind, Option.some.injEq] at hs
        subst hs
        refine allBoards_set h ?_ rfl
        simp
  | RenamingColumn =>
    by_cases hbuf : s.input_buffer = ""
    · simp only [App.submit_input, Option.pure_def, Option.bind_eq_bind, hm, hbuf, ne_eq, not_true_eq_false, if_false,
        Option.some_bind, Option.some.injEq] at hs
      subst hs
      exact h
    · cases hcp : s.currentProject with
      | none => simp [App.submit_input, hm, hbuf, hcp] at hs
      | some p =>
        have hmem : p ∈ s.projects := List.get?_mem hcp
        cases hcol : p.board.get_column s.selected_column with
        | none =>
            simp only [App.submit_input, Option.pure_def, Option.bind_eq_bind, hm, hbuf, ne_eq, not_false_eq_true, if_true,
              hcp, hcol, Option.some_bind, Option.bind_eq_bind, Option.some.injEq] at hs
            subst hs
            exact h
        | some col =>
            simp only [App.submit_input, Option.pure_def, Option.bind_eq_bind, hm, hbuf, ne_eq, not_false_eq_true, if_true,
              hcp, hcol, Option.some_bind, Option.bind_eq_bind, Option.some.injEq] at hs
            subst hs
            refine allBoards_set h ?_ rfl
            simpa using h p hmem
  | Normal =>
    simp only [App.submit_input, Option.pure_def, Option.bind_eq_bind, hm, Option.some.injEq] at hs
    subst hs
    exact h
  | ViewingTask =>
    simp only [App.submit_input, Option.pure_def, Option.bind_eq_bind, hm, Option.some.injEq] at hs
    subst hs
    exact h
  | ViewingHelp =>
    simp only [App.submit_input, Option.pure_def, Option.bind_eq_bind, hm, Option.some.injEq] at hs
    subst hs
    exact h
  | ProjectList =>
    simp only [App.submit_input, Option.pure_def, Option.bind_eq_bind, hm, Option.some.injEq] at hs
    subst hs
    exact h

theorem allBoards_step {s s1 : App} (i : Intent) (h : AllBoardsNonempty s)
    (hs : step i s = some s1) : AllBoardsNonempty s1 := by
  cases i with
  | moveUp =>
    obtain rfl := Option.some.inj hs
    refine allBoards_of_eq h ?_
    unfold App.move_up
    split_ifs <;> rfl
  | moveDown => exact allBoards_of_eq h (move_down_projects hs)
  | moveLeft => exact allBoards_of_eq h (move_left_projects hs)
  | moveRight => exact allBoards_of_eq h (move_right_projects hs)
  | moveTaskForward => exact allBoards_move_task_forward h hs
  | moveTaskBackward => exact allBoards_move_task_backward h hs
  | deleteTask => exact allBoards_delete_task h hs
  | startAddingColumn => obtain rfl := Option.some.inj hs; exact allBoards_of_eq h rfl
  | startRenamingColumn => exact allBoards_of_eq h (start_renaming_column_projects hs)
  | deleteColumn => exact allBoards_delete_column h hs
  | moveColumnLeft => exact allBoards_move_column_left h hs
  | moveColumnRight => exact allBoards_move_column_right h hs
  | startAddingTask => obtain rfl := Option.some.inj hs; exact allBoards_of_eq h rfl
  | startAddingTag => exact allBoards_of_eq h (start_adding_tag_projects hs)
  | cancelInput => obtain rfl := Option.some.inj hs; exact allBoards_of_eq h rfl
  | inputChar c => obtain rfl := Option.some.inj hs; exact allBoards_of_eq h rfl
  | inputBackspace => obtain rfl := Option.some.inj hs; exact allBoards_of_eq h rfl
  | submitInput => exact allBoards_submit_input h hs
  | openTask => exact allBoards_of_eq h (open_task_projects hs)
  | nextField => obtain rfl := Option.some.inj hs; exact allBoards_of_eq h rfl
  | startEditingTitle => exact allBoards_of_eq h (start_editing_title_projects hs)
  | startEditingDescription => exact allBoards_of_eq h (start_editing_description_projects hs)
  | removeTag n => exact allBoards_remove_tag n h hs
  | openProjectList => obtain rfl := Option.some.inj hs; exact allBoards_of_eq h rfl
  | selectProject => obtain rfl := Option.some.inj hs; exact allBoards_of_eq h rfl
  | moveProjectUp =>
    obtain rfl := Option.some.inj hs
    refine allBoards_of_eq h ?_
    unfold App.move_project_up
    split_ifs <;> rfl
  | moveProjectDown => exact allBoards_of_eq h (move_project_down_projects hs)
  | startAddingProject => obtain rfl := Option.some.inj hs; exact allBoards_of_eq h rfl
  | deleteProject => exact allBoards_delete_project h hs
  | showHelp => obtain rfl := Option.some.inj hs; exact allBoards_of_eq h rfl
  | closeView => obtain rfl := Option.some.inj hs; exact allBoards_of_eq h rfl
  | updateScroll => exact allBoards_of_eq h (update_scroll_projects hs).1

theorem currentColumns_eq (s : App) {p : Project}
    (hp : s.projects.get? s.current_project = some p) :
    s.currentColumns = p.board.columns := by
  rw [List.get?_eq_getElem?] at hp
  simp [App.currentColumns, App.board, App.currentProject, hp]

theorem currentColumns_congr {s1 s2 : App} (h1 : s1.projects = s2.projects)
    (h2 : s1.current_project = s2.current_project) :
    s1.currentColumns = s2.currentColumns := by
  simp [App.currentColumns, App.board, App.currentProject, h1, h2]

theorem delete_column_tail (s : App) (p : Project) (bE : Board)
    (hpeq : s.projects.get? s.current_project = some p)
    (hp : s.current_project < s.projects.length)
    {s2 : App}
    (hres : s.delete_column = (App.clamp_selection s2).bind (fun s3 => some s3.save))
    (h2proj : s2.projects = (s.withBoard p bE).projects)
    (h2cp : s2.current_project = s.current_project)
    (h2save : s2.saveCount = s.saveCount)
    (selv : Nat) (h2sel : s2.selected_column = selv) :
    ∃ s1, s.delete_column = some s1 ∧
      s1.currentColumns = bE.columns ∧
      s1.selected_column = selv ∧
      s1.saveCount = s.saveCount + 1 ∧
      (∀ k, k ≠ s.current_project → s1.projects.get? k = s.projects.get? k) := by
  have hp2 : s2.current_project < s2.projects.length := by
    rw [h2cp, h2proj]
    simpa [App.withBoard] using hp
  rw [clamp_selection_eq _ hp2] at hres
  simp only [Option.some_bind] at hres
  obtain ⟨sC, hres1, hCproj, hCcp, hCcol, hCsave⟩ :
      ∃ sC : App, s.delete_column = some sC.save ∧
        sC.projects = s2.projects ∧ sC.current_project = s2.current_project ∧
        sC.selected_column = s2.selected_column ∧ sC.saveCount = s2.saveCount := by
    rw [hres]
    split_ifs <;> exact ⟨_, rfl, rfl, rfl, rfl, rfl⟩
  refine ⟨sC.save, hres1, ?_, ?_, ?_, ?_⟩
  · have e1 : (App.save sC).currentColumns = (s.withBoard p bE).currentColumns :=
      currentColumns_congr (by show sC.projects = _; rw [hCproj, h2proj])
        (by show sC.current_project = _; rw [hCcp, h2cp]; rfl)
    rw [e1, currentColumns_eq (s.withBoard p bE)
      (p := { p with board := bE }) (get?_set_self _ _ _ hp)]
  · show sC.selected_column = selv
    rw [hCcol, h2sel]
  · show sC.saveCount + 1 = s.saveCount + 1
    rw [hCsave, h2save]
  · intro k hk
    show sC.projects.get? k = s.projects.get? k
    rw [hCproj, h2proj]
    show (s.projects.set s.current_project _).get? k = s.projects.get? k
    rw [get?_set_ne_idx _ _ _ _ (Ne.symm hk)]

theorem delete_column_spec (s : App)
    (hp : s.current_project < s.projects.length)
    (hcol : s.selected_column < s.columnCount) :
    ((s.columnCount = 1 ∨ 0 < s.selColLen) → s.delete_column = some s) ∧
    (1 < s.columnCount → s.selColLen = 0 →
      ∃ s1, s.delete_column = some s1 ∧
        s1.currentColumns = s.currentColumns.eraseIdx s.selected_column ∧
        s1.selected_column = min s.selected_column (s.columnCount - 2) ∧
        s1.saveCount = s.saveCount + 1 ∧
        (∀ k, k ≠ s.current_project → s1.projects.get? k = s.projects.get? k)) := by
  obtain ⟨p, hpeq⟩ := get?_isSome_of_lt s.projects s.current_project hp
  have hcpS : s.currentProject = some p := hpeq
  have hcc := columnCount_eq s hpeq
  have hscl := selColLen_eq s hpeq
  have hsellt : s.selected_column < p.board.columns.length := by rw [hcc] at hcol; exact hcol
  obtain ⟨col, hcolget⟩ := get?_isSome_of_lt p.board.columns s.selected_column hsellt
  have hcolgetE : p.board.columns[s.selected_column]? = some col := by
    rw [← List.get?_eq_getElem?]; exact hcolget
  have hsclcol : s.selColLen = col.tasks.length := by
    rw [hscl, columnLen_eq_of_get _ hcolget]
  constructor
  · rintro (hone | hpos)
    · have hle : p.board.columns.length ≤ 1 := by rw [hcc] at hone; omega
      simp [App.delete_column, hcpS, hle]
    · by_cases hle : p.board.columns.length ≤ 1
      · simp [App.delete_column, hcpS, hle]
      · have hisE : col.tasks.isEmpty = false := by
          cases hct : col.tasks with
          | nil => rw [hct] at hsclcol; simp at hsclcol; omega
          | cons a l => rfl
        simp [App.delete_column, hcpS, hle, Board.get_column, hcolgetE, hisE]
  · intro hgt hemp
    have hgt1 : 1 < p.board.columns.length := by rw [hcc] at hgt; exact hgt
    have hnle : ¬ p.board.columns.length ≤ 1 := by omega
    have htasks : col.tasks = [] := by
      rw [hemp] at hsclcol
      exact List.length_eq_zero.mp hsclcol.symm
    have hisE : col.tasks.isEmpty = true := by rw [htasks]; rfl
    have hlenE : (p.board.columns.eraseIdx s.selected_column).length
        = p.board.columns.length - 1 := by
      rw [List.length_eraseIdx]
      simp [hsellt]
    have hcalc : s.delete_column =
        (App.clamp_selection (if (s.withBoard p
              { columns := p.board.columns.eraseIdx s.selected_column }).selected_column ≥
              (p.board.columns.eraseIdx s.selected_column).length then
            { s.withBoard p { columns := p.board.columns.eraseIdx s.selected_column } with
              selected_column := (p.board.columns.eraseIdx s.selected_column).length - 1 }
          else
            s.withBoard p { columns := p.board.columns.eraseIdx s.selected_column })).bind
          (fun s3 => some s3.save) := by
      simp [App.delete_column, hcpS, hnle, Board.get_column, hcolgetE, hisE]
    by_cases hre : (s.withBoard p
        { columns := p.board.columns.eraseIdx s.selected_column }).selected_column ≥
        (p.board.columns.eraseIdx s.selected_column).length
    · rw [if_pos hre] at hcalc
      obtain ⟨s1, h1, h2, h3, h4, h5⟩ := delete_column_tail s p
        { columns := p.board.columns.eraseIdx s.selected_column } hpeq hp hcalc rfl rfl rfl _ rfl
      refine ⟨s1, h1, ?_, ?_, h4, h5⟩
      · rw [h2, currentColumns_eq s hpeq]
      · rw [h3]
        have hre2 : s.selected_column ≥ (p.board.columns.eraseIdx s.selected_column).length := hre
        show (p.board.columns.eraseIdx s.selected_column).length - 1 = _
        rw [hcc, Nat.min_def]
        split_ifs <;> omega
    · rw [if_neg hre] at hcalc
      obtain ⟨s1, h1, h2, h3, h4, h5⟩ := delete_column_tail s p
        { columns := p.board.columns.eraseIdx s.selected_column } hpeq hp hcalc rfl rfl rfl _ rfl
      refine ⟨s1, h1, ?_, ?_, h4, h5⟩
      · rw [h2, currentColumns_eq s hpeq]
      · rw [h3]
        have hre2 : ¬ s.selected_column ≥ (p.board.columns.eraseIdx s.selected_column).length :=
          hre
        show s.selected_column = _
        rw [hcc, Nat.min_def]
        split_ifs <;> omega

/-- State with a healthy one-column current project and a zero-column
sibling project highlighted in the project list. -/
def twoProjOneEmpty : App :=
  { app0 with
      projects :=
        [ { name := "A", board := { columns := [BoardColumn.new "todo" "To Do"] } }
        , { name := "B", board := { columns := [] } } ]
    , selected_project_index := 1 }

/-- C4 counterexample: `twoProjOneEmpty` has a current board with one column
(at least one), yet the App operation `select_project` switches to the
zero-column sibling project, after which the board has no columns — the
operation does not preserve the at-least-one-column property of the current
board when another project of the loaded file violates it. -/
theorem select_project_breaks_column_invariant :
    1 ≤ twoProjOneEmpty.columnCount ∧
    (App.select_project twoProjOneEmpty).columnCount = 0 :=
  ⟨by decide, by decide⟩

/-- C4 amended: if every project board has at least one column, then every
intent operation of the App state machine preserves that property; and for a
valid current project with the selected column index in range,
`delete_column` leaves the state unchanged (and performs no save) when the
board has exactly one column or the selected column contains at least one
task, and otherwise removes exactly the selected column, re-clamps the
selected column index, saves once, and touches no other project. -/
theorem columns_invariant_and_delete_column :
    (∀ (s s1 : App) (i : Intent), AllBoardsNonempty s → step i s = some s1 →
      AllBoardsNonempty s1) ∧
    (∀ s : App, s.current_project < s.projects.length →
      s.selected_column < s.columnCount →
      ((s.columnCount = 1 ∨ 0 < s.selColLen) → s.delete_column = some s) ∧
      (1 < s.columnCount → s.selColLen = 0 →
        ∃ s1, s.delete_column = some s1 ∧
          s1.currentColumns = s.currentColumns.eraseIdx s.selected_column ∧
          s1.selected_column = min s.selected_column (s.columnCount - 2) ∧
          s1.saveCount = s.saveCount + 1 ∧
          (∀ k, k ≠ s.current_project → s1.projects.get? k = s.projects.get? k))) :=
  ⟨fun s s1 i h hs => allBoards_step i h hs,
   fun s hp hcol => delete_column_spec s hp hcol⟩

/-- Witness for C4: deleting the first (empty) column of the startup state
default board succeeds and leaves the remaining columns. -/
theorem columns_invariant_and_delete_column_witness :
    ∃ s1, app0.delete_column = some s1 ∧
      s1.currentColumns = app0.currentColumns.eraseIdx app0.selected_column :=
  match (columns_invariant_and_delete_column.2 app0 (by decide) (by decide)).2
      (by decide) (by decide) with
  | ⟨s1, h1, h2, _, _, _⟩ => ⟨s1, h1, h2⟩


/-! ## C3: panic-freedom of the state machine -/

/-- Well-formedness of an `App` state: valid current and highlighted project
indices, every board nonempty, and the selected column index in range. -/
def WF (s : App) : Prop :=
  s.current_project < s.projects.length ∧
  s.selected_project_index < s.projects.length ∧
  (∀ p ∈ s.projects, 0 < p.board.columns.length) ∧
  s.selected_column < s.columnCount

theorem clamp_selection_isSome (s : App) (hp : s.current_project < s.projects.length) :
    ∃ s1, s.clamp_selection = some s1 := by
  rw [clamp_selection_eq s hp]
  exact ⟨_, rfl⟩

theorem clamp_bind_save_isSome {x : App} (hx : x.current_project < x.projects.length) :
    ((App.clamp_selection x).bind (fun s1 => some s1.save)).isSome = true := by
  obtain ⟨s1, h1⟩ := clamp_selection_isSome x hx
  rw [h1]
  rfl

theorem update_scroll_isSome {x : App} (hx : x.current_project < x.projects.length) :
    ∃ s1, x.update_scroll = some s1 := by
  unfold App.update_scroll
  by_cases hv : x.visible_items = 0
  · rw [if_pos hv]
    exact ⟨_, rfl⟩
  · rw [if_neg hv]
    obtain ⟨b, hb⟩ := board_eq_some x hx
    rw [hb]
    exact ⟨_, rfl⟩

/-- State loaded from a parseable current-format file holding one project
whose board has zero columns. -/
def zeroColApp : App :=
  App.new (.parsed [{ name := "X", board := { columns := [] } }]) .absent .absent

/-- C3 counterexample: `zeroColApp` is reachable (it is the startup state for
a parseable current-format file, with no intents), and the `delete_task`
intent panics on it — `get_column_mut(selected_column).unwrap()` on the
zero-column board — instead of being a silent no-op. -/
theorem reachable_delete_task_panics :
    ReachableApp zeroColApp ∧ App.delete_task zeroColApp = none :=
  ⟨⟨.parsed [{ name := "X", board := { columns := [] } }], .absent, .absent, [], rfl⟩, rfl⟩


theorem wf_step_isSome (s : App) (h : WF s) (i : Intent) : (step i s).isSome = true := by
  obtain ⟨hp, hsp, hball, hcol⟩ := h
  obtain ⟨p, hpeq⟩ := get?_isSome_of_lt s.projects s.current_project hp
  have hcpS : s.currentProject = some p := hpeq
  have hb : s.board = some p.board := by simp [App.board, hcpS]
  have hcc := columnCount_eq s hpeq
  have hsellt : s.selected_column < p.board.columns.length := by rw [hcc] at hcol; exact hcol
  obtain ⟨col, hcolget⟩ := get?_isSome_of_lt p.board.columns s.selected_column hsellt
  have hcolgetE : p.board.columns[s.selected_column]? = some col := by
    rw [← List.get?_eq_getElem?]; exact hcolget
  cases i with
  | moveUp => rfl
  | moveDown =>
    show (s.move_down).isSome = true
    unfold App.move_down
    rw [hb]
    simp only [Option.bind_eq_bind, Option.some_bind]
    split_ifs <;> rfl
  | moveLeft =>
    show (s.move_left).isSome = true
    unfold App.move_left
    split_ifs with h0
    · obtain ⟨s1, h1⟩ :=
        clamp_selection_isSome { s with selected_column := s.selected_column - 1 } hp
      rw [h1]; rfl
    · rfl
  | moveRight =>
    show (s.move_right).isSome = true
    unfold App.move_right
    rw [hb]
    simp only [Option.bind_eq_bind, Option.some_bind]
    have hsub : usizeSub p.board.columns.length 1 = some (p.board.columns.length - 1) := by
      unfold usizeSub
      rw [if_pos (by omega)]
    rw [hsub]
    simp only [Option.some_bind]
    split_ifs with hlt
    · obtain ⟨s1, h1⟩ :=
        clamp_selection_isSome { s with selected_column := s.selected_column + 1 } hp
      rw [h1]; rfl
    · rfl
  | moveTaskForward =>
    show (s.move_task_forward).isSome = true
    by_cases hlt : s.selected_column + 1 < p.board.columns.length
    · cases hmv : col.tasks.get? s.selected_index with
      | none =>
          have hmvE : col.tasks[s.selected_index]? = none := by
            rw [← List.get?_eq_getElem?]; exact hmv
          simp [App.move_task_forward, hcpS, hlt, Board.get_column, hcolgetE, hmvE]
      | some task =>
          obtain ⟨dstCol, hdstget⟩ :=
            get?_isSome_of_lt p.board.columns (s.selected_column + 1) hlt
          have hdstgetE : p.board.columns[s.selected_column + 1]? = some dstCol := by
            rw [← List.get?_eq_getElem?]; exact hdstget
          have hmvE : col.tasks[s.selected_index]? = some task := by
            rw [← List.get?_eq_getElem?]; exact hmv
          have hb1E : (p.board.columns.set s.selected_column
              { col with tasks := col.tasks.eraseIdx s.selected_index })[s.selected_column + 1]?
              = some dstCol := by
            rw [← List.get?_eq_getElem?, get?_set_ne_idx _ _ _ _ (by omega)]
            exact hdstget
          have hdstval : p.board.columns[s.selected_column + 1] = dstCol := by
            have h2 := List.getElem?_eq_getElem (l := p.board.columns) hlt
            rw [hdstgetE] at h2
            exact (Option.some.inj h2).symm
          have hmc : MoveSpec s s.selected_column (s.selected_column + 1)
              s.move_task_forward := by
            refine move_core_spec s hpeq hp rfl hcolget hdstget (by omega) hmv rfl rfl rfl
              s.move_task_forward ?_
            simp [App.move_task_forward, hcpS, hlt, Board.get_column, hcolgetE, hmvE, hb1E,
              hdstval]
          obtain ⟨s1, -, -, -, hres, -⟩ := hmc
          rw [hres]; rfl
    · simp [App.move_task_forward, hcpS, hlt]
  | moveTaskBackward =>
    show (s.move_task_backward).isSome = true
    by_cases hpos : s.selected_column > 0
    · cases hmv : col.tasks.get? s.selected_index with
      | none =>
          have hmvE : col.tasks[s.selected_index]? = none := by
            rw [← List.get?_eq_getElem?]; exact hmv
          simp [App.move_task_backward, hcpS, hpos, Board.get_column, hcolgetE, hmvE]
      | some task =>
          have hdlt : s.selected_column - 1 < p.board.columns.length := by omega
          obtain ⟨dstCol, hdstget⟩ :=
            get?_isSome_of_lt p.board.columns (s.selected_column - 1) hdlt
          have hdstgetE : p.board.columns[s.selected_column - 1]? = some dstCol := by
            rw [← List.get?_eq_getElem?]; exact hdstget
          have hmvE : col.tasks[s.selected_index]? = some task := by
            rw [← List.get?_eq_getElem?]; exact hmv
          have hb1E : (p.board.columns.set s.selected_column
              { col with tasks := col.tasks.eraseIdx s.selected_index })[s.selected_column - 1]?
              = some dstCol := by
            rw [← List.get?_eq_getElem?, get?_set_ne_idx _ _ _ _ (by omega)]
            exact hdstget
          have hdstval : p.board.columns[s.selected_column - 1] = dstCol := by
            have h2 := List.getElem?_eq_getElem (l := p.board.columns) hdlt
            rw [hdstgetE] at h2
            exact (Option.some.inj h2).symm
          have hmc : MoveSpec s s.selected_column (s.selected_column - 1)
              s.move_task_backward := by
            refine move_core_spec s hpeq hp rfl hcolget hdstget (by omega) hmv rfl rfl rfl
              s.move_task_backward ?_
            simp [App.move_task_backward, hcpS, hpos, Board.get_column, hcolgetE, hmvE, hb1E,
              hdstval]
          obtain ⟨s1, -, -, -, hres, -⟩ := hmc
          rw [hres]; rfl
    · simp [App.move_task_backward, hpos]
  | deleteTask =>
    show (s.delete_task).isSome = true
    by_cases hidx : s.selected_index < col.tasks.length
    · obtain ⟨remCol, hrem⟩ : ∃ c : BoardColumn,
          c = { col with tasks := col.tasks.eraseIdx s.selected_index } := ⟨_, rfl⟩
      have hcalc : s.delete_task =
          (App.clamp_selection (s.withBoard p
            { columns := p.board.columns.set s.selected_column remCol })).bind
            (fun s1 => some s1.save) := by
        simp [App.delete_task, hcpS, Board.get_column, hcolgetE, hidx, hrem]
      rw [hcalc]
      exact clamp_bind_save_isSome (by simpa [App.withBoard] using hp)
    · simp [App.delete_task, hcpS, Board.get_column, hcolgetE, hidx]
  | startAddingColumn => rfl
  | startRenamingColumn =>
    show (s.start_renaming_column).isSome = true
    simp [App.start_renaming_column, hb, Board.get_column, hcolgetE]
  | deleteColumn =>
    show (s.delete_column).isSome = true
    obtain ⟨ha, hbspec⟩ := delete_column_spec s hp hcol
    by_cases h1 : s.columnCount = 1
    · rw [ha (Or.inl h1)]; rfl
    · by_cases h2 : 0 < s.selColLen
      · rw [ha (Or.inr h2)]; rfl
      · obtain ⟨s1, h3, -⟩ := hbspec (by omega) (by omega)
        rw [h3]; rfl
  | moveColumnLeft =>
    show (s.move_column_left).isSome = true
    by_cases hpos : s.selected_column > 0
    · obtain ⟨a, ha⟩ := get?_isSome_of_lt p.board.columns s.selected_column hsellt
      obtain ⟨b2, hb2⟩ := get?_isSome_of_lt p.board.columns (s.selected_column - 1) (by omega)
      have hsw : ∃ l2, listSwap p.board.columns s.selected_column (s.selected_column - 1)
          = some l2 := by
        unfold listSwap
        rw [ha, hb2]
        exact ⟨_, rfl⟩
      obtain ⟨l2, hsw⟩ := hsw
      simp [App.move_column_left, hpos, hcpS, hsw]
    · simp [App.move_column_left, hpos]
  | moveColumnRight =>
    show (s.move_column_right).isSome = true
    have hsub : usizeSub p.board.columns.length 1 = some (p.board.columns.length - 1) := by
      unfold usizeSub
      rw [if_pos (by omega)]
    by_cases hltc : s.selected_column < p.board.columns.length - 1
    · obtain ⟨a, ha⟩ := get?_isSome_of_lt p.board.columns s.selected_column hsellt
      obtain ⟨b2, hb2⟩ := get?_isSome_of_lt p.board.columns (s.selected_column + 1) (by omega)
      have hsw : ∃ l2, listSwap p.board.columns s.selected_column (s.selected_column + 1)
          = some l2 := by
        unfold listSwap
        rw [ha, hb2]
        exact ⟨_, rfl⟩
      obtain ⟨l2, hsw⟩ := hsw
      simp [App.move_column_right, hcpS, hsub, hltc, hsw]
    · simp [App.move_column_right, hcpS, hsub, hltc]
  | startAddingTask => rfl
  | startAddingTag =>
    show (s.start_adding_tag).isSome = true
    simp only [App.start_adding_tag, hb, Option.bind_eq_bind, Option.some_bind,
      Board.get_column]
    rw [hcolget]
    simp only [Option.pure_def]
    split_ifs <;> rfl
  | cancelInput => rfl
  | inputChar c => rfl
  | inputBackspace => rfl
  | submitInput =>
    show (s.submit_input).isSome = true
    cases hm : s.input_mode with
    | AddingTask =>
      by_cases hbuf : s.input_buffer = ""
      · simp [App.submit_input, hm, hbuf]
      · obtain ⟨newCol, hnc⟩ : ∃ c : BoardColumn,
            c = { col with tasks := col.tasks ++ [Task.new s.input_buffer] } := ⟨_, rfl⟩
        obtain ⟨sB, hsB⟩ : ∃ x : App, x =
            { s.withBoard p { columns := p.board.columns.set s.selected_column newCol } with
              selected_index := (col.tasks ++ [Task.new s.input_buffer]).length - 1 } :=
          ⟨_, rfl⟩
        have hcalc : s.submit_input =
            sB.update_scroll.bind (fun y => some y.save.cancel_input) := by
          simp [App.submit_input, hm, hbuf, hcpS, Board.get_column, hcolgetE, hsB, hnc]
        rw [hcalc]
        obtain ⟨y, hy⟩ := update_scroll_isSome (x := sB)
          (by rw [hsB]; simpa [App.withBoard] using hp)
        rw [hy]; rfl
    | AddingTag =>
      by_cases hbuf : s.input_buffer = ""
      · simp [App.submit_input, hm, hbuf]
      · cases hmv : col.tasks.get? s.selected_index with
        | none =>
            have hmvE : col.tasks[s.selected_index]? = none := by
              rw [← List.get?_eq_getElem?]; exact hmv
            simp [App.submit_input, hm, hbuf, hcpS, Board.get_column, hcolgetE, hmvE]
        | some t =>
            have hmvE : col.tasks[s.selected_index]? = some t := by
              rw [← List.get?_eq_getElem?]; exact hmv
            simp [App.submit_input, hm, hbuf, hcpS, Board.get_column, hcolgetE, hmvE]
    | EditingTitle =>
      by_cases hbuf : s.input_buffer = ""
      · simp [App.submit_input, hm, hbuf]
      · cases hmv : col.tasks.get? s.selected_index with
        | none =>
            have hmvE : col.tasks[s.selected_index]? = none := by
              rw [← List.get?_eq_getElem?]; exact hmv
            simp [App.submit_input, hm, hbuf, hcpS, Board.get_column, hcolgetE, hmvE]
        | some t =>
            have hmvE : col.tasks[s.selected_index]? = some t := by
              rw [← List.get?_eq_getElem?]; exact hmv
            simp [App.submit_input, hm, hbuf, hcpS, Board.get_column, hcolgetE, hmvE]
    | EditingDescription =>
      cases hmv : col.tasks.get? s.selected_index with
      | none =>
          have hmvE : col.tasks[s.selected_index]? = none := by
            rw [← List.get?_eq_getElem?]; exact hmv
          simp [App.submit_input, hm, hcpS, Board.get_column, hcolgetE, hmvE]
      | some t =>
          have hmvE : col.tasks[s.selected_index]? = some t := by
            rw [← List.get?_eq_getElem?]; exact hmv
          simp [App.submit_input, hm, hcpS, Board.get_column, hcolgetE, hmvE]
    | AddingProject =>
      by_cases hbuf : s.input_buffer = "" <;> simp [App.submit_input, hm, hbuf]
    | AddingColumn =>
      by_cases hbuf : s.input_buffer = ""
      · simp [App.submit_input, hm, hbuf]
      · simp [App.submit_input, hm, hbuf, hcpS]
    | RenamingColumn =>
      by_cases hbuf : s.input_buffer = ""
      · simp [App.submit_input, hm, hbuf]
      · simp [App.submit_input, hm, hbuf, hcpS, Board.get_column, hcolgetE]
    | Normal => simp [App.submit_input, hm]
    | ViewingTask => simp [App.submit_input, hm]
    | ViewingHelp => simp [App.submit_input, hm]
    | ProjectList => simp [App.submit_input, hm]
  | openTask =>
    show (s.open_task).isSome = true
    simp only [App.open_task, hb, Option.bind_eq_bind, Option.some_bind, Board.get_column]
    rw [hcolget]
    simp only [Option.pure_def]
    split_ifs <;> rfl
  | nextField => rfl
  | startEditingTitle =>
    show (s.start_editing_title).isSome = true
    simp only [App.start_editing_title, hb, Option.bind_eq_bind, Option.some_bind,
      Board.get_column]
    rw [hcolget]
    simp only [Option.pure_def]
    cases hmv : col.tasks.get? s.selected_index <;> rfl
  | startEditingDescription =>
    show (s.start_editing_description).isSome = true
    simp only [App.start_editing_description, hb, Option.bind_eq_bind, Option.some_bind,
      Board.get_column]
    rw [hcolget]
    simp only [Option.pure_def]
    cases hmv : col.tasks.get? s.selected_index <;> rfl
  | removeTag n =>
    show (s.remove_tag n).isSome = true
    simp only [App.remove_tag, hcpS, Option.bind_eq_bind, Option.some_bind, Board.get_column]
    rw [hcolget]
    simp only [Option.pure_def]
    cases hmv : col.tasks.get? s.selected_index with
    | none => rfl
    | some t =>
        dsimp only
        split_ifs <;> rfl
  | openProjectList => rfl
  | selectProject => rfl
  | moveProjectUp => rfl
  | moveProjectDown =>
    show (s.move_project_down).isSome = true
    unfold App.move_project_down
    have hsubp : usizeSub s.projects.length 1 = some (s.projects.length - 1) := by
      unfold usizeSub
      rw [if_pos (by omega)]
    rw [hsubp]
    simp only [Option.bind_eq_bind, Option.some_bind]
    split_ifs <;> rfl
  | startAddingProject => rfl
  | deleteProject =>
    show (s.delete_project).isSome = true
    unfold App.delete_project
    by_cases hlen : s.projects.length > 1
    · rw [if_pos hlen]
      obtain ⟨q, hq⟩ := get?_isSome_of_lt s.projects s.selected_project_index hsp
      rw [hq]
      simp only [Option.bind_eq_bind, Option.some_bind]
      split_ifs <;> rfl
    · rw [if_neg hlen]; rfl
  | showHelp => rfl
  | closeView => rfl
  | updateScroll =>
    show (s.update_scroll).isSome = true
    obtain ⟨s1, h1⟩ := update_scroll_isSome (x := s) hp
    rw [h1]; rfl


/-- C3: the spec claims that on every reachable state every operation either
performs its documented effect or is a silent no-op and never panics.
Refuted: reachable_delete_task_panics exhibits a reachable state (loaded from
a parseable projects file holding a project with zero columns) on which
delete_task panics.  Amended: on states satisfying the well-formedness
invariant WF (current and highlighted project indices in range, every
project board nonempty, selected column index in range) every one of the
intents succeeds without a modelled panic, and the edge cases are silent
no-ops: delete_task with the selected task index out of range,
move_task_backward at the first column, move_task_forward at the last
column, and delete_column with a single column or a nonempty selected
column all leave the state unchanged. -/
theorem wf_no_panic (s : App) (h : WF s) :
    (∀ i : Intent, (step i s).isSome = true) ∧
    (s.selColLen ≤ s.selected_index → s.delete_task = some s) ∧
    (s.selected_column = 0 → s.move_task_backward = some s) ∧
    (s.selected_column + 1 = s.columnCount → s.move_task_forward = some s) ∧
    (s.columnCount = 1 ∨ 0 < s.selColLen → s.delete_column = some s) := by
  obtain ⟨hp, hsp, hball, hcol⟩ := h
  obtain ⟨p, hpeq⟩ := get?_isSome_of_lt s.projects s.current_project hp
  have hcpS : s.currentProject = some p := hpeq
  have hcc := columnCount_eq s hpeq
  have hscl := selColLen_eq s hpeq
  have hsellt : s.selected_column < p.board.columns.length := by rw [hcc] at hcol; exact hcol
  obtain ⟨col, hcolget⟩ := get?_isSome_of_lt p.board.columns s.selected_column hsellt
  have hcolgetE : p.board.columns[s.selected_column]? = some col := by
    rw [← List.get?_eq_getElem?]; exact hcolget
  have hsclcol : s.selColLen = col.tasks.length := by
    rw [hscl, columnLen_eq_of_get _ hcolget]
  refine ⟨fun i => wf_step_isSome s ⟨hp, hsp, hball, hcol⟩ i, ?_, ?_, ?_, ?_⟩
  · intro hge
    have hidx : ¬ s.selected_index < col.tasks.length := by omega
    simp [App.delete_task, hcpS, Board.get_column, hcolgetE, hidx]
  · intro h0
    simp [App.move_task_backward, h0]
  · intro hlast
    have hnlt : ¬ (s.selected_column + 1 < p.board.columns.length) := by
      rw [hcc] at hlast; omega
    simp [App.move_task_forward, hcpS, hnlt]
  · intro hcase
    exact (delete_column_spec s hp hcol).1 hcase

/-- Witness for C3: the freshly loaded default state is well formed, its
delete-task intent succeeds, and move_task_backward at the first column is a
silent no-op. -/
theorem wf_no_panic_witness :
    (step Intent.deleteTask app0).isSome = true ∧
    App.move_task_backward app0 = some app0 := by
  have hw : WF app0 := ⟨by decide, by decide, by decide, by decide⟩
  exact ⟨(wf_no_panic app0 hw).1 Intent.deleteTask, (wf_no_panic app0 hw).2.2.1 rfl⟩


end Kanban
